import Mathlib

set_option maxRecDepth 8000

/-!
Verification development for the periodic snapshot scheduler ("BackupManager")
and its companion report aggregator ("BackupReporter") of the student-records
service, together with the shared file-naming and JSON serialization contract
(`file-utils.js`).  JavaScript sources are shallowly embedded: machine numbers
that matter are modelled as `Nat`/`Int`/`Rat`, strings as Lean `String`
(a list of characters, adequate for the ASCII data in play), fallible
operations as `Except`/`Option`, and the event-driven manager as an explicit
state machine.
-/

/-! ## UTC calendar components of a JavaScript `Date` -/

/-- The UTC calendar components of a JavaScript `Date` value, down to the
millisecond.  A (non-NaN) JS `Date` is equivalently an epoch-milliseconds
number or this component tuple; the component view is primal here because
`Date.prototype.toISOString` renders exactly these fields. -/
structure JsDateTime where
  year : Nat
  month : Nat
  day : Nat
  hour : Nat
  minute : Nat
  second : Nat
  ms : Nat
deriving DecidableEq

/-- Component ranges of a well-formed UTC date (calendar-valid dates form a
subset; theorems quantified over this superset are strictly stronger).
The year bound 9999 matches the range in which `toISOString` uses the plain
4-digit year format rather than the expanded `±YYYYYY` format. -/
def ValidDateTime (t : JsDateTime) : Prop :=
  t.year ≤ 9999 ∧ 1 ≤ t.month ∧ t.month ≤ 12 ∧ 1 ≤ t.day ∧ t.day ≤ 31 ∧
  t.hour ≤ 23 ∧ t.minute ≤ 59 ∧ t.second ≤ 59 ∧ t.ms ≤ 999

instance (t : JsDateTime) : Decidable (ValidDateTime t) := by
  unfold ValidDateTime; infer_instance

/-- Truncation of a timestamp to whole seconds (drop the milliseconds),
the granularity encoded in backup filenames. -/
def truncToSecond (t : JsDateTime) : JsDateTime := { t with ms := 0 }

/-! ## Decimal rendering (JavaScript number-to-string for naturals) -/

/-- The character for decimal digit `d` (`0 ≤ d ≤ 9`). -/
def digitChar (d : Nat) : Char := Char.ofNat (48 + d)

/-- Decimal rendering worker; `fuel` bounds the recursion depth so that the
definition is structurally recursive (and hence evaluates inside the kernel).
`natDigits` always supplies enough fuel. -/
def natDigitsAux : Nat → Nat → List Char
  | _, 0 => []
  | n, fuel + 1 =>
    if n < 10 then [digitChar n]
    else natDigitsAux (n / 10) fuel ++ [digitChar (n % 10)]

/-- Decimal digit characters of `n`, most significant first: the JavaScript
`String(n)` for a non-negative integer `n`. -/
def natDigits (n : Nat) : List Char := natDigitsAux n (n + 1)

/-- JavaScript `String(n)` for a natural number. -/
def jsNatToString (n : Nat) : String := String.mk (natDigits n)

/-- Zero-pad to width 2 (`String(n).padStart(2, "0")`, for `n ≤ 99`). -/
def pad2 (n : Nat) : List Char :=
  if n < 10 then '0' :: natDigits n else natDigits n

/-- Zero-pad to width 3 (the milliseconds field of `toISOString`). -/
def pad3 (n : Nat) : List Char :=
  if n < 10 then '0' :: '0' :: natDigits n
  else if n < 100 then '0' :: natDigits n
  else natDigits n

/-- Zero-pad to width 4 (the year field of `toISOString`). -/
def pad4 (n : Nat) : List Char :=
  if n < 10 then '0' :: '0' :: '0' :: natDigits n
  else if n < 100 then '0' :: '0' :: natDigits n
  else if n < 1000 then '0' :: natDigits n
  else natDigits n

/-- `Date.prototype.toISOString` on a date with UTC components `t`
(for `t.year ≤ 9999`): `YYYY-MM-DDTHH:mm:ss.sssZ`. -/
def toISOString (t : JsDateTime) : String :=
  String.mk (pad4 t.year ++ '-' :: (pad2 t.month ++ '-' :: (pad2 t.day ++
    'T' :: (pad2 t.hour ++ ':' :: (pad2 t.minute ++ ':' :: (pad2 t.second ++
    '.' :: (pad3 t.ms ++ ['Z'])))))))

/-! ## The string transforms used by `BackupManager.#generateBackupFileName` -/

/-- JavaScript `str.replace(/T/, "-")` specialised to single characters:
replaces only the first occurrence of `c`. -/
def replaceFirstChar (c r : Char) : List Char → List Char
  | [] => []
  | x :: xs => if x = c then r :: xs else x :: replaceFirstChar c r xs

/-- JavaScript `str.replace(/:/g, "-")` specialised to single characters:
replaces every occurrence of `c`. -/
def replaceAllChar (c r : Char) (l : List Char) : List Char :=
  l.map fun x => if x = c then r else x

/-- JavaScript `str.split(".")[0]`: the longest initial segment free of `'.'`. -/
def takeBeforeDot : List Char → List Char
  | [] => []
  | x :: xs => if x = '.' then [] else x :: takeBeforeDot xs

/-- `BackupManager.#generateBackupFileName`, as a function of the current
time `t` (the UTC components of `new Date()`):

    const timestamp = now.toISOString()
      .replace(/T/, "-").replace(/:/g, "-").split(".")[0];
    return `backup-${timestamp}.backup.json`;
-/
def generateBackupFileName (t : JsDateTime) : String :=
  "backup-" ++
    String.mk (takeBeforeDot (replaceAllChar ':' '-'
      (replaceFirstChar 'T' '-' (toISOString t).data))) ++
    ".backup.json"

/-! ## Epoch arithmetic (proleptic Gregorian calendar, days since 1970-01-01) -/

/-- Serial day number of the civil date `y-m-d` relative to 1970-01-01
(proleptic Gregorian; `m` is 1-based; `d` may lie outside its month, in which
case the result is the correspondingly shifted day, exactly as JavaScript's
`MakeDay` normalisation behaves). -/
def daysFromCivil (y : Int) (m : Nat) (d : Int) : Int :=
  let y' : Int := if m ≤ 2 then y - 1 else y
  let era : Int := y'.fdiv 400
  let yoe : Int := y' - era * 400
  let mp : Int := if 2 < m then (m : Int) - 3 else (m : Int) + 9
  let doy : Int := (153 * mp + 2).fdiv 5 + d - 1
  let doe : Int := yoe * 365 + yoe.fdiv 4 - yoe.fdiv 100 + doy
  era * 146097 + doe - 719468

/-- Civil date `(year, month, day)` of serial day number `z`. -/
def civilFromDays (z0 : Int) : Int × Nat × Nat :=
  let z : Int := z0 + 719468
  let era : Int := z.fdiv 146097
  let doe : Int := z - era * 146097
  let yoe : Int := (doe - doe.fdiv 1460 + doe.fdiv 36524 - doe.fdiv 146096).fdiv 365
  let y : Int := yoe + era * 400
  let doy : Int := doe - (365 * yoe + yoe.fdiv 4 - yoe.fdiv 100)
  let mp : Int := (5 * doy + 2).fdiv 153
  let d : Int := doy - (153 * mp + 2).fdiv 5 + 1
  let m : Int := if mp < 10 then mp + 3 else mp - 9
  (if m ≤ 2 then y + 1 else y, m.toNat, d.toNat)

/-- Epoch milliseconds of the UTC civil components `t` (the inverse of the
UTC component breakdown of a JS `Date`). -/
def civilToMs (t : JsDateTime) : Int :=
  daysFromCivil (t.year : Int) t.month (t.day : Int) * 86400000 +
    (t.hour : Int) * 3600000 + (t.minute : Int) * 60000 +
    (t.second : Int) * 1000 + (t.ms : Int)

/-- UTC civil components of epoch milliseconds `ms` (years before year 0 are
outside the scope of this development and are clamped by `Int.toNat`). -/
def dateTimeFromMs (ms : Int) : JsDateTime :=
  let days : Int := ms.fdiv 86400000
  let rem : Nat := (ms.fmod 86400000).toNat
  let c := civilFromDays days
  { year := c.1.toNat, month := c.2.1, day := c.2.2,
    hour := rem / 3600000, minute := rem % 3600000 / 60000,
    second := rem % 60000 / 1000, ms := rem % 1000 }

/-! ## The result of JavaScript date parsing -/

/-- A JavaScript `Date` produced by parsing: either the Invalid Date (its time
value is NaN), or calendar components together with the zone they are to be
interpreted in: `zone = none` means the host's local zone,
`zone = some o` a fixed offset of `o` minutes east of UTC (`some 0` = UTC).
The host zone is modelled throughout as a constant offset (no DST). -/
inductive JSDate
  | invalid
  | valid (t : JsDateTime) (zone : Option Int)
deriving DecidableEq

/-- Epoch milliseconds of a parsed date, given the host-zone offset
`tzMin` (minutes east of UTC); `none` for the Invalid Date (NaN). -/
def jsDateEpochMs (tzMin : Int) : JSDate → Option Int
  | .invalid => none
  | .valid t zone => some (civilToMs t - (zone.getD tzMin) * 60000)

/-- JavaScript `>` on two `Date`s (comparison of time values; any comparison
involving NaN is false). -/
def jsDateGt (tzMin : Int) (a b : JSDate) : Bool :=
  match jsDateEpochMs tzMin a, jsDateEpochMs tzMin b with
  | some x, some y => y < x
  | _, _ => false

/-- `Date.prototype.toISOString`: throws `RangeError` on the Invalid Date,
otherwise renders the UTC components of the instant. -/
def jsDateToISOString (tzMin : Int) (d : JSDate) : Except String String :=
  match jsDateEpochMs tzMin d with
  | none => .error "RangeError: Invalid time value"
  | some ms => .ok (toISOString (dateTimeFromMs ms))

/-! ## V8's date-string parser (`new Date(string)`)

JavaScript leaves `new Date(string)` on non-ISO strings to implementation
heuristics; the program runs on Node.js, so the model below follows V8's
`DateParser`: an attempt at the ES5 date-time string format that, on a
mismatch, hands the *remaining* token stream (tokens already consumed are
lost) to the legacy parser.  Scope notes, none of which affect the strings
this development evaluates the parser on: month-name / am-pm / timezone-name
keywords and parenthesised comments are not modelled (inputs here contain no
such words), and the extended `±YYYYYY` year format is omitted. -/

/-- Tokens of V8's date-string scanner. -/
inductive DTok
  | num (value : Nat) (len : Nat)
  | sym (c : Char)
  | word (w : List Char)
  | ws
deriving DecidableEq

/-- Numeric value of a run of digit characters. -/
def digitRunVal (l : List Char) : Nat :=
  l.foldl (fun a c => a * 10 + (c.toNat - 48)) 0

/-- The date-string tokenizer: maximal digit runs become numbers (with their
length), maximal letter runs become words, whitespace collapses to `ws`,
every other character is a symbol. -/
def dtokenizeAux : Nat → List Char → List DTok
  | 0, _ => []
  | _, [] => []
  | fuel + 1, c :: cs =>
    if c.isDigit then
      let run := c :: cs.takeWhile (·.isDigit)
      .num (digitRunVal run) run.length :: dtokenizeAux fuel (cs.dropWhile (·.isDigit))
    else if c.isAlpha then
      .word (c :: cs.takeWhile (·.isAlpha)) :: dtokenizeAux fuel (cs.dropWhile (·.isAlpha))
    else if c = ' ' ∨ c = '\t' ∨ c = '\n' ∨ c = '\r' then
      .ws :: dtokenizeAux fuel cs
    else
      .sym c :: dtokenizeAux fuel cs

def dtokenize (l : List Char) : List DTok := dtokenizeAux l.length l

/-- Scale a parsed fraction-of-a-second digit run to milliseconds
(V8 `ReadMilliseconds`: first three digits, right-padded with zeros). -/
def msOfFraction (value len : Nat) : Nat :=
  if len ≥ 3 then value / 10 ^ (len - 3) else value * 10 ^ (3 - len)

/-- Outcome of the ES5 date-time-string phase (`ParseES5DateTime`). -/
inductive ES5Out
  | fail
  | doneDate (y mo d : Nat)
  | doneDateTime (y mo d h mi s ms : Nat) (zone : Option Int)
  | fallback (rest : List DTok)
deriving DecidableEq

/-- The optional zone part of an ES5 time (`Z` or `±HH:MM`), which must end
the string. -/
def es5Zone (y mo d h mi s ms : Nat) : List DTok → ES5Out
  | [] => .doneDateTime y mo d h mi s ms none
  | [.word ['Z']] => .doneDateTime y mo d h mi s ms (some 0)
  | [.word ['z']] => .doneDateTime y mo d h mi s ms (some 0)
  | .sym '+' :: [.num oh 2, .sym ':', .num om 2] =>
    if oh ≤ 23 ∧ om ≤ 59 then .doneDateTime y mo d h mi s ms (some ((oh : Int) * 60 + om))
    else .fail
  | .sym '-' :: [.num oh 2, .sym ':', .num om 2] =>
    if oh ≤ 23 ∧ om ≤ 59 then .doneDateTime y mo d h mi s ms (some (-((oh : Int) * 60 + om)))
    else .fail
  | _ => .fail

/-- The time part of an ES5 date-time string, after the `T`: `HH:mm`,
optionally `:ss` and `.sss`, then an optional zone.  A malformed time after a
`T` invalidates the whole parse (no legacy fallback from here). -/
def es5Time (y mo d : Nat) : List DTok → ES5Out
  | .num h 2 :: .sym ':' :: .num mi 2 :: rest =>
    if h ≤ 24 ∧ mi ≤ 59 then
      match rest with
      | .sym ':' :: .num s 2 :: .sym '.' :: .num f fl :: rest2 =>
        if s ≤ 59 then es5Zone y mo d h mi s (msOfFraction f fl) rest2 else .fail
      | .sym ':' :: .num s 2 :: rest2 =>
        if s ≤ 59 then es5Zone y mo d h mi s 0 rest2 else .fail
      | _ => es5Zone y mo d h mi 0 0 rest
    else .fail
  | _ => .fail

/-- `ParseES5DateTime`: `YYYY[-MM[-DD]]` optionally followed by
`T` and a time.  On any mismatch before a `T` is seen it falls back to the
legacy parser, handing over the stream *from the failing token on* — the
tokens already consumed (year, month, day and their dashes) are dropped. -/
def parseES5 (toks : List DTok) : ES5Out :=
  match toks with
  | .num y 4 :: rest =>
    match rest with
    | .sym '-' :: r2 =>
      match r2 with
      | .num mo 2 :: r3 =>
        if 1 ≤ mo ∧ mo ≤ 12 then
          match r3 with
          | .sym '-' :: r4 =>
            match r4 with
            | .num d 2 :: r5 =>
              if 1 ≤ d ∧ d ≤ 31 then
                match r5 with
                | [] => .doneDate y mo d
                | .word ['T'] :: r6 => es5Time y mo d r6
                | .word ['t'] :: r6 => es5Time y mo d r6
                | t :: r6 => .fallback (t :: r6)
              else .fallback r4
            | _ => .fallback r4
          | [] => .doneDate y mo 1
          | .word ['T'] :: r4 => es5Time y mo 1 r4
          | .word ['t'] :: r4 => es5Time y mo 1 r4
          | t :: r4 => .fallback (t :: r4)
        else .fallback r2
      | _ => .fallback r2
    | [] => .doneDate y 1 1
    | .word ['T'] :: r2 => es5Time y 1 1 r2
    | .word ['t'] :: r2 => es5Time y 1 1 r2
    | t :: r2 => .fallback (t :: r2)
  | _ => .fallback toks

/-! ### The legacy (Safari-compatible) parser phase -/

/-- Composer state of V8's legacy date parser: up to three day components, up
to four time components (hour, minute, second, millisecond), an optional UTC
offset under construction, and the has-read-number flag. -/
structure LegacySt where
  dayComps : List Nat := []
  timeComps : List Nat := []
  tzUTCkw : Bool := false
  tzSign : Option Int := none
  tzHour : Option Nat := none
  tzMinute : Option Nat := none
  hasNum : Bool := false
deriving DecidableEq

/-- `TimeComposer::IsExpecting`: a time is under construction and has room. -/
def timeExpecting (st : LegacySt) : Bool :=
  !st.timeComps.isEmpty && st.timeComps.length < 4

/-- `TimeZoneComposer::IsExpecting n`: an offset hour has been read, its
minute part has not, and `n` is a valid minute. -/
def tzExpecting (st : LegacySt) (n : Nat) : Bool :=
  st.tzHour.isSome && st.tzMinute.isNone && n ≤ 59

/-- `TimeComposer::AddFinal`: append `n` and zero-fill the remaining slots. -/
def timeAddFinal (st : LegacySt) (n : Nat) : LegacySt :=
  let tc := st.timeComps ++ [n]
  { st with timeComps := tc ++ List.replicate (4 - tc.length) 0 }

/-- Branches of the legacy loop for a number token, after the `:`-lookahead
cases are exhausted (V8 consumes a directly following `.` before testing
these, hence `r` may already have the dot stripped). -/
def legacyNumRest (st : LegacySt) (n : Nat) (r : List DTok) : Option (LegacySt × List DTok) :=
  if tzExpecting st n then some ({ st with tzMinute := some n }, r)
  else if timeExpecting st then
    let st := timeAddFinal st n
    match r with
    | [] => some (st, r)
    | .ws :: _ => some (st, r)
    | .word ['Z'] :: _ => some (st, r)
    | .word ['z'] :: _ => some (st, r)
    | .sym '+' :: _ => some (st, r)
    | .sym '-' :: _ => some (st, r)
    | .sym ')' :: _ => some (st, r)
    | .sym ',' :: _ => some (st, r)
    | _ => none
  else
    if st.dayComps.length ≥ 3 then none
    else
      let st := { st with dayComps := st.dayComps ++ [n] }
      match r with
      | .sym '-' :: r2 => some (st, r2)
      | _ => some (st, r)

/-- One step of the legacy loop on a number token (the `token.IsNumber()`
branch, with its lookahead at `:` and `.`). -/
def legacyNum (st : LegacySt) (n : Nat) (r : List DTok) : Option (LegacySt × List DTok) :=
  let st := { st with hasNum := true }
  match r with
  | .sym ':' :: .sym ':' :: r3 =>
    if st.timeComps.isEmpty then some ({ st with timeComps := [n, 0] }, r3) else none
  | .sym ':' :: r2 =>
    if st.timeComps.length < 4 then
      let st := { st with timeComps := st.timeComps ++ [n] }
      match r2 with
      | .sym '.' :: r3 => some (st, r3)
      | _ => some (st, r2)
    else none
  | .sym '.' :: r2 =>
    if timeExpecting st then
      match r2 with
      | .num f fl :: r3 =>
        if st.timeComps.length < 3 then
          some (timeAddFinal { st with timeComps := st.timeComps ++ [n] } (msOfFraction f fl), r3)
        else none
      | _ => none
    else legacyNumRest st n r2
  | _ => legacyNumRest st n r

/-- Is this word one of the UTC-designating keywords the model recognises
(`Z`, `UT`, `UTC`, `GMT`, any case)? -/
def isUTCWord (w : List Char) : Bool :=
  let lw := w.map Char.toLower
  lw = ['z'] || lw = ['u', 't'] || lw = ['u', 't', 'c'] || lw = ['g', 'm', 't']

/-- The legacy parser loop (`DateParser::Parse`'s token loop), fuelled by the
token count (each step consumes at least one token). -/
def legacyLoop : Nat → LegacySt → List DTok → Option LegacySt
  | _, st, [] => some st
  | 0, _, _ => none
  | fuel + 1, st, t :: r =>
    match t with
    | .num n _ =>
      match legacyNum st n r with
      | some (st', r') => legacyLoop fuel st' r'
      | none => none
    | .word w =>
      if isUTCWord w then
        if st.hasNum then legacyLoop fuel { st with tzUTCkw := true } r else none
      else if st.hasNum then none
      else
        match r with
        | .num _ _ :: _ => none
        | _ => legacyLoop fuel st r
    | .sym c =>
      if c = '+' ∨ c = '-' then
        if st.tzUTCkw || !st.timeComps.isEmpty then
          let sgn : Int := if c = '+' then 1 else -1
          let st := { st with tzSign := some sgn, hasNum := true }
          match r with
          | .num n len :: r2 =>
            match r2 with
            | .sym ':' :: _ =>
              legacyLoop fuel { st with tzHour := some n, tzMinute := none } r2
            | _ =>
              if len = 1 ∨ len = 2 then
                legacyLoop fuel { st with tzHour := some n, tzMinute := some 0 } r2
              else if len = 3 ∨ len = 4 then
                legacyLoop fuel { st with tzHour := some (n / 100), tzMinute := some (n % 100) } r2
              else none
          | .sym ':' :: _ =>
            legacyLoop fuel { st with tzHour := some 0, tzMinute := none } r
          | _ => none
        else if st.hasNum then none
        else legacyLoop fuel st r
      else if c = ')' then
        if st.hasNum then none else legacyLoop fuel st r
      else legacyLoop fuel st r
    | .ws => legacyLoop fuel st r

/-- `DayComposer::Write` (no named month in scope): pad to three components
with 1, pick Y/M/D vs M/D/Y by `IsDay(comp0)`, apply the two-digit-year
window, and range-check month and day. -/
def dayWrite (st : LegacySt) : Option (Nat × Nat × Nat) :=
  match st.dayComps with
  | [] => none
  | c0 :: cs =>
    let c1 := cs.getD 0 1
    let c2 := cs.getD 1 1
    let ymd : Nat × Nat × Nat :=
      if 1 ≤ c0 ∧ c0 ≤ 31 then (c2, c0, c1) else (c0, c1, c2)
    let y := if ymd.1 ≤ 49 then ymd.1 + 2000
             else if ymd.1 ≤ 99 then ymd.1 + 1900 else ymd.1
    if 1 ≤ ymd.2.1 ∧ ymd.2.1 ≤ 12 ∧ 1 ≤ ymd.2.2 ∧ ymd.2.2 ≤ 31 then
      some (y, ymd.2.1, ymd.2.2)
    else none

/-- `TimeComposer::Write` (no am/pm in scope): zero-fill to four components
and range-check hour, minute, second and millisecond. -/
def timeWrite (st : LegacySt) : Option (Nat × Nat × Nat × Nat) :=
  let tc := st.timeComps ++ List.replicate (4 - st.timeComps.length) 0
  let h := tc.getD 0 0
  let mi := tc.getD 1 0
  let s := tc.getD 2 0
  let ms := tc.getD 3 0
  if h ≤ 23 ∧ mi ≤ 59 ∧ s ≤ 59 ∧ ms ≤ 999 then some (h, mi, s, ms) else none

/-- `TimeZoneComposer::Write`: no sign and no UTC keyword means the host's
local zone; otherwise a fixed offset in minutes east of UTC. -/
def tzWrite (st : LegacySt) : Option (Option Int) :=
  match st.tzSign with
  | none => if st.tzUTCkw then some (some 0) else some none
  | some sgn =>
    let h := st.tzHour.getD 0
    let mi := st.tzMinute.getD 0
    some (some (sgn * ((h : Int) * 60 + mi)))

/-- V8's `new Date(string)`: tokenize, try the ES5 format, fall back to the
legacy parser on the remaining tokens, then assemble the composers. -/
def v8ParseDateString (s : String) : JSDate :=
  let toks := dtokenize s.data
  match parseES5 toks with
  | .fail => .invalid
  | .doneDate y mo d => .valid ⟨y, mo, d, 0, 0, 0, 0⟩ (some 0)
  | .doneDateTime y mo d h mi sec ms zone => .valid ⟨y, mo, d, h, mi, sec, ms⟩ zone
  | .fallback rest =>
    match legacyLoop (rest.length + 1) {} rest with
    | none => .invalid
    | some st =>
      match dayWrite st, timeWrite st, tzWrite st with
      | some (y, mo, d), some (h, mi, sec, ms), some zone =>
        .valid ⟨y, mo, d, h, mi, sec, ms⟩ zone
      | _, _, _ => .invalid

/-! ## `BackupReporter.#parseTimestampFromFilename` -/

/-- JavaScript `parseInt(s)` (radix 10): skip whitespace, optional sign,
then a maximal digit run; NaN (`none`) when no digit follows. -/
def jsParseInt (s : String) : Option Int :=
  let l := s.data.dropWhile fun c => c = ' ' ∨ c = '\t' ∨ c = '\n' ∨ c = '\r'
  let core : List Char → Option Nat := fun r =>
    match r.takeWhile (·.isDigit) with
    | [] => none
    | ds => some (digitRunVal ds)
  match l with
  | '-' :: r => (core r).map fun n => -(n : Int)
  | '+' :: r => (core r).map fun n => (n : Int)
  | r => (core r).map fun n => (n : Int)

/-- `new Date(year, month, day, hour, minute, second)` with possibly-NaN
numeric arguments: NaN anywhere gives the Invalid Date; otherwise the
components are normalised through epoch arithmetic (`MakeDay`/`MakeDate`),
with the 0–99 → 1900–1999 year window, in the host's local zone. -/
def jsMakeDateArgs (y mo d h mi s : Option Int) : JSDate :=
  match y, mo, d, h, mi, s with
  | some y, some mo, some d, some h, some mi, some s =>
    let yr : Int := if 0 ≤ y ∧ y ≤ 99 then 1900 + y else y
    let ym : Int := yr + mo.fdiv 12
    let mn : Nat := (mo.fmod 12).toNat
    let epoch : Int := (daysFromCivil ym (mn + 1) d) * 86400000 +
      h * 3600000 + mi * 60000 + s * 1000
    .valid (dateTimeFromMs epoch) none
  | _, _, _, _, _, _ => .invalid

/-- The path component after the last `/` (what `path.basename` keeps before
any extension stripping). -/
def lastPathComponent (l : List Char) : List Char :=
  l.foldl (fun acc c => if c = '/' then [] else acc ++ [c]) []

/-- Strip `sfx` from the end of `l` when it is a proper suffix
(`path.basename(p, ext)` semantics: the extension is not stripped when the
whole name equals it). -/
def stripSfxProper (l sfx : List Char) : List Char :=
  if l.length > sfx.length ∧ l.drop (l.length - sfx.length) = sfx then
    l.take (l.length - sfx.length)
  else l

/-- JavaScript `str.replace(sub, "")` for a plain substring pattern:
remove the first occurrence. -/
def replaceFirstSub (pat : List Char) : List Char → List Char
  | [] => []
  | c :: cs =>
    if pat.isPrefixOf (c :: cs) then (c :: cs).drop pat.length
    else c :: replaceFirstSub pat cs

/-- JavaScript `str.split(c)` for a single-character separator (empty
segments preserved). -/
def splitOnChar (c : Char) (l : List Char) : List (List Char) :=
  l.foldr (fun x acc =>
    match acc with
    | [] => [[x]]
    | a :: rest => if x = c then [] :: a :: rest else (x :: a) :: rest) [[]]

/-- `BackupReporter.#parseTimestampFromFilename`:

    const basename = path.basename(filename, ".backup.json");
    const timestampStr = basename.replace("backup-", "");
    const [timePart] = timestampStr.split("T");
    if (!timePart) {            // only when timestampStr is empty or starts with "T"
      const parts = timestampStr.split("-");
      if (parts.length >= 6) {
        const [year, month, day, hour, minute, second] = parts;
        return new Date(parseInt(year), parseInt(month) - 1, parseInt(day),
                        parseInt(hour), parseInt(minute), parseInt(second));
      }
    }
    return new Date(timestampStr);
-/
def parseTimestampFromFilename (filename : String) : JSDate :=
  let basename := stripSfxProper (lastPathComponent filename.data) ".backup.json".data
  let timestampStr := replaceFirstSub "backup-".data basename
  let timePart := timestampStr.takeWhile (· ≠ 'T')
  if timePart = [] then
    match splitOnChar '-' timestampStr with
    | y :: mo :: d :: h :: mi :: s :: _ :: _ =>
      jsMakeDateArgs (jsParseInt (String.mk y)) ((jsParseInt (String.mk mo)).map (· - 1))
        (jsParseInt (String.mk d)) (jsParseInt (String.mk h))
        (jsParseInt (String.mk mi)) (jsParseInt (String.mk s))
    | [y, mo, d, h, mi, s] =>
      jsMakeDateArgs (jsParseInt (String.mk y)) ((jsParseInt (String.mk mo)).map (· - 1))
        (jsParseInt (String.mk d)) (jsParseInt (String.mk h))
        (jsParseInt (String.mk mi)) (jsParseInt (String.mk s))
    | _ => v8ParseDateString (String.mk timestampStr)
  else v8ParseDateString (String.mk timestampStr)

/-! ## `BackupReporter`: directory model and `generateReport` -/

/-- A JavaScript primitive value as it can appear in a record field. -/
inductive JSVal
  | vnull
  | vundef
  | vbool (b : Bool)
  | vnum (n : Int)
  | vstr (s : String)
deriving DecidableEq

/-- JavaScript truthiness of a primitive (`NaN` is not representable here;
numbers coming out of the repository's record files are integers). -/
def truthyJSVal : JSVal → Bool
  | .vnull => false
  | .vundef => false
  | .vbool b => b
  | .vnum n => n ≠ 0
  | .vstr s => s ≠ ""

/-- JavaScript `ToString` of a primitive, as used when a value becomes an
object property key. -/
def jsValKeyString : JSVal → String
  | .vnull => "null"
  | .vundef => "undefined"
  | .vbool b => if b then "true" else "false"
  | .vnum n => if n < 0 then "-" ++ jsNatToString n.natAbs else jsNatToString n.toNat
  | .vstr s => s

/-- One element of a parsed snapshot array, to the extent `generateReport`
inspects it: either a primitive, or an object with an optional `id` field
(absent means reading `.id` yields `undefined`). -/
inductive SnapElem
  | prim (v : JSVal)
  | record (id : Option JSVal)
deriving DecidableEq

/-- The key under which `generateReport` counts an element, when it does:
the source guard is `student && student.id`, so primitives never count
(falsy, or truthy with `.id` undefined), and objects count exactly when
their `id` is truthy. -/
def elemIdKey : SnapElem → Option String
  | .prim _ => none
  | .record none => none
  | .record (some v) => if truthyJSVal v then some (jsValKeyString v) else none

/-- What reading and JSON-parsing one file yields, as `generateReport`
observes it: a read/parse error (the `catch` path), a JSON value that is not
an array (the `!Array.isArray` path), or an array of elements. -/
inductive FileContent
  | readError
  | nonArrayJSON
  | records (students : List SnapElem)
deriving DecidableEq

/-- JavaScript `str.endsWith(sfx)`. -/
def jsEndsWith (s sfx : String) : Bool := sfx.data.isSuffixOf s.data

/-- `path.join(dir, file)` for the simple names in play. -/
def jsPathJoin (dir file : String) : String := dir ++ "/" ++ file

/-- `BackupReporter.#getBackupFiles`: list the backup directory (`none` for
ENOENT, treated as empty), keep the names ending in `.backup.json`, and
return their joined paths (each carrying the content a later read yields). -/
def getBackupFiles (backupDirectory : String)
    (dirListing : Option (List (String × FileContent))) : List (String × FileContent) :=
  match dirListing with
  | none => []
  | some files =>
    (files.filter fun f => jsEndsWith f.1 ".backup.json").map
      fun f => (jsPathJoin backupDirectory f.1, f.2)

/-- The running aggregation state of `generateReport`'s per-file loop. -/
structure RepAcc where
  latestFile : Option String := none
  latestDate : Option JSDate := none
  counts : List (String × Nat) := []
  totalStudents : Nat := 0
  totalFilesWithStudents : Nat := 0
deriving DecidableEq

/-- `studentIdCounts[id] = (studentIdCounts[id] || 0) + 1` on an association
list (object-entry order is irrelevant to the final report, which re-sorts). -/
def upsertCount (key : String) : List (String × Nat) → List (String × Nat)
  | [] => [(key, 1)]
  | (k, v) :: rest => if k = key then (k, v + 1) :: rest else (k, v) :: upsertCount key rest

/-- The `students.forEach` body: bump the count of each truthy id. -/
def countStudents (cs : List (String × Nat)) (students : List SnapElem) : List (String × Nat) :=
  students.foldl
    (fun cs st => match elemIdKey st with
      | some key => upsertCount key cs
      | none => cs) cs

/-- One iteration of `generateReport`'s loop body over `(filePath, content)`:
read errors and non-arrays are skipped; otherwise track the latest derived
date, count truthy ids, and accumulate the totals. -/
def reportStep (tzMin : Int) (acc : RepAcc) (file : String × FileContent) : RepAcc :=
  match file.2 with
  | .readError => acc
  | .nonArrayJSON => acc
  | .records students =>
    let fileDate := parseTimestampFromFilename file.1
    let acc :=
      if acc.latestDate.isNone || jsDateGt tzMin fileDate (acc.latestDate.getD .invalid) then
        { acc with latestDate := some fileDate,
                   latestFile := some (String.mk (lastPathComponent file.1.data)) }
      else acc
    { acc with
      counts := countStudents acc.counts students,
      totalStudents := acc.totalStudents + students.length,
      totalFilesWithStudents :=
        acc.totalFilesWithStudents + (if students.length > 0 then 1 else 0) }

/-- Byte-wise lexicographic strict order on character lists (the model of
`localeCompare` for the digit-and-ASCII keys in play). -/
def strLtb : List Char → List Char → Bool
  | [], [] => false
  | [], _ :: _ => true
  | _ :: _, [] => false
  | a :: as, b :: bs =>
    if a.toNat < b.toNat then true
    else if b.toNat < a.toNat then false
    else strLtb as bs

/-- The total preorder `a ≤ b` induced by `strLtb`. -/
def strLeb (a b : String) : Bool := !(strLtb b.data a.data)

/-- The report `generateReport` resolves with: either the zero-files shape
(exactly the two fields the source returns in that case) or the full
statistics shape.  `averageAmountOfStudents` is held in hundredths
(`350` stands for the JavaScript number `3.50`), which renders
`parseFloat(avg.toFixed(2))` exactly and keeps the model computable. -/
inductive Report
  | noBackups (amountOfBackupFiles : Nat) (message : String)
  | stats (amountOfBackupFiles : Nat) (latestBackupFile : Option String)
      (latestBackupDatetime : Option String)
      (studentsGroupedById : List (String × Nat))
      (averageAmountOfStudents : Int)
deriving DecidableEq

/-- `parseFloat((totalStudents / totalFilesWithStudents).toFixed(2))` of the
source, in hundredths: `toFixed(2)` rounds to the closest hundredth with
ties towards the larger value, i.e. `⌊100·q + 1/2⌋` for the non-negative
`q = num/den` here; the guarded division-by-zero case yields 0. -/
def averageHundredths (num den : Nat) : Int :=
  if den > 0 then (200 * (num : Int) + (den : Int)).fdiv (2 * (den : Int)) else 0

instance {ε α : Type} [DecidableEq ε] [DecidableEq α] : DecidableEq (Except ε α) := fun a b =>
  match a, b with
  | .ok x, .ok y => decidable_of_iff (x = y) (by simp)
  | .error x, .error y => decidable_of_iff (x = y) (by simp)
  | .ok _, .error _ => isFalse (by simp)
  | .error _, .ok _ => isFalse (by simp)

/-- `BackupReporter.generateReport`, over an abstract directory listing
(`none` = the directory does not exist) and a host-zone offset.  The
`Except.error` case is the promise rejecting — which the source can do via
`latestDate.toISOString()` on an Invalid Date. -/
def generateReport (tzMin : Int)
    (dirListing : Option (List (String × FileContent))) : Except String Report :=
  let backupFiles := getBackupFiles "backups" dirListing
  let amountOfBackupFiles := backupFiles.length
  if amountOfBackupFiles = 0 then
    .ok (.noBackups 0 "No backup files found.")
  else
    let acc := backupFiles.foldl (reportStep tzMin) {}
    let avg : Int := averageHundredths acc.totalStudents acc.totalFilesWithStudents
    let studentsById :=
      List.insertionSort (fun a b : String × Nat => strLeb a.1 b.1 = true) acc.counts
    match acc.latestDate with
    | none =>
      .ok (.stats amountOfBackupFiles acc.latestFile none studentsById avg)
    | some d =>
      match jsDateToISOString tzMin d with
      | .error e => .error e
      | .ok iso =>
        .ok (.stats amountOfBackupFiles acc.latestFile (some iso) studentsById avg)

/-! ## `BackupManager`: scheduler state machine

`start`, `stop`, the `setInterval` tick callback and the asynchronous
completion of `#performBackup` are the only points at which the manager's
state changes; each is modelled as one event.  A `#performBackup` invocation
runs synchronously up to its first `await` — so its entry effects
(`isBackupInProgress = true`, `pendingIntervalsCount = 0`, one more
operation in flight) belong to the event that launches it — and its
completion (the `finally` block plus the notifications) is a separate
`finish` event carrying the outcome. -/

/-- Outcome of one snapshot operation: success with the generated filename,
or failure with an (abstract) error identifier and the filename — `none` when
the operation failed before computing it (`backupFileName` still `null`). -/
inductive BackupOutcome
  | ok (fn : String)
  | err (e : Nat) (fn : Option String)
deriving DecidableEq

/-- External events driving one `BackupManager` instance. -/
inductive BEvent
  | start
  | stop
  | tick
  | finish (o : BackupOutcome)
deriving DecidableEq

/-- The notification stream (`this.emit("backup:…")`).  `started` carries the
raw interval in ms (the source emits `intervalMs / 1000` seconds);
`timeout` carries the fixed message
"Backup operation has been pending for 3 intervals in a row". -/
inductive BackupNotif
  | started (intervalMs : Nat)
  | alreadyRunning
  | completed (fn : String)
  | failed (e : Nat) (fn : Option String)
  | backupError (e : Nat)
  | timeout
  | stopped
  | notRunning
deriving DecidableEq

/-- The manager's mutable state: `timerArmed` is `intervalId !== null`,
`isBackupInProgress` and `pendingIntervalsCount` are the private fields of
the source, and `inFlight` counts `#performBackup` invocations that have not
yet run their `finally` block (operational bookkeeping; the source has no
such field, which is exactly why overlapping operations are expressible). -/
structure MgrState where
  timerArmed : Bool := false
  isBackupInProgress : Bool := false
  pendingIntervalsCount : Nat := 0
  inFlight : Nat := 0
deriving DecidableEq

/-- `isRunning()`: whether the timer is armed. -/
def isRunning (s : MgrState) : Bool := s.timerArmed

/-- Entry effects of a `#performBackup()` call (its synchronous head):
mark in progress, reset the overlap counter, one more operation in flight. -/
def performBackupEntry (s : MgrState) : MgrState :=
  { s with isBackupInProgress := true, pendingIntervalsCount := 0,
           inFlight := s.inFlight + 1 }

/-- One step of the manager: the state transition and the notifications the
step emits, in emission order.

* `start`: if the timer is armed, emit `already-running` and return;
  otherwise emit `started`, arm the timer, and launch an immediate
  `#performBackup` (whose rejection the `.catch` turns into `backup:error`
  at `finish` time).
* `tick` (only possible while the timer is armed): if a backup is in
  progress, bump the overlap counter; at 3 disarm the timer, clear the
  flag and emit `timeout` (the `setImmediate` re-throw escalation is outside
  the state model); otherwise launch a `#performBackup`.
* `finish o` (only meaningful with an operation in flight): run the
  `finally` block (clear the flag, reset the counter) and emit
  `completed`, or `failed` followed by the launch site's `backup:error`.
* `stop`: if the timer is not armed emit `not-running`, otherwise disarm
  and emit `stopped`.

Events that cannot occur in the modelled situation (`tick` with the timer
disarmed, `finish` with nothing in flight) are no-ops. -/
def mgrStep (intervalMs : Nat) (s : MgrState) : BEvent → MgrState × List BackupNotif
  | .start =>
    if s.timerArmed then (s, [.alreadyRunning])
    else (performBackupEntry { s with timerArmed := true }, [.started intervalMs])
  | .tick =>
    if !s.timerArmed then (s, [])
    else if s.isBackupInProgress then
      let p := s.pendingIntervalsCount + 1
      if p ≥ 3 then
        ({ s with timerArmed := false, isBackupInProgress := false,
                  pendingIntervalsCount := p }, [.timeout])
      else ({ s with pendingIntervalsCount := p }, [])
    else (performBackupEntry s, [])
  | .finish o =>
    if s.inFlight = 0 then (s, [])
    else
      let s' := { s with inFlight := s.inFlight - 1, isBackupInProgress := false,
                         pendingIntervalsCount := 0 }
      match o with
      | .ok fn => (s', [.completed fn])
      | .err e fn => (s', [.failed e fn, .backupError e])
  | .stop =>
    if s.timerArmed then ({ s with timerArmed := false }, [.stopped])
    else (s, [.notRunning])

/-- Run a sequence of events from a state, collecting all notifications. -/
def mgrRunFrom (intervalMs : Nat) : MgrState → List BEvent → MgrState × List BackupNotif
  | s, [] => (s, [])
  | s, e :: es =>
    ((mgrRunFrom intervalMs (mgrStep intervalMs s e).1 es).1,
      (mgrStep intervalMs s e).2 ++ (mgrRunFrom intervalMs (mgrStep intervalMs s e).1 es).2)

/-- Run a sequence of events from the freshly-constructed manager. -/
def mgrRun (intervalMs : Nat) (es : List BEvent) : MgrState × List BackupNotif :=
  mgrRunFrom intervalMs {} es

/-! ## `file-utils.js`: `saveToJSON` / `loadJSON`

`saveToJSON(data, path)` writes `JSON.stringify(data, null, 2)`;
`loadJSON(path)` returns `JSON.parse` of the file body.  The values that flow
through them here are arrays of Student records
(`{id: string, name: string, age: int, group: int}`, fields in constructor
order), so the serializer is stated for those; the parser is a general JSON
reader over the documents in scope (integer numerals — the repository's
record fields are validated integers). -/

/-- A student record as constructed by `student.js` (`new Student(id, name,
age, group)`): `age` is validated as a non-negative integer, `group` as an
integer. -/
structure Student where
  id : String
  name : String
  age : Nat
  group : Int
deriving DecidableEq

/-- JavaScript `String(n)` for an integer. -/
def jsIntToString (n : Int) : List Char :=
  if n < 0 then '-' :: natDigits n.natAbs else natDigits n.toNat

/-- Lowercase hexadecimal digit. -/
def hexDigit (n : Nat) : Char :=
  if n < 10 then digitChar n else Char.ofNat (87 + n)

/-- `JSON.stringify`'s escaping of one string character. -/
def escapeJSONChar (c : Char) : List Char :=
  if c = '"' then ['\\', '"']
  else if c = '\\' then ['\\', '\\']
  else if c = Char.ofNat 8 then ['\\', 'b']
  else if c = Char.ofNat 9 then ['\\', 't']
  else if c = Char.ofNat 10 then ['\\', 'n']
  else if c = Char.ofNat 12 then ['\\', 'f']
  else if c = Char.ofNat 13 then ['\\', 'r']
  else if c.toNat < 32 then
    ['\\', 'u', '0', '0', hexDigit (c.toNat / 16), hexDigit (c.toNat % 16)]
  else [c]

/-- `JSON.stringify`'s quoted rendering of a string. -/
def quoteJSONString (s : String) : List Char :=
  '"' :: (s.data.map escapeJSONChar).flatten ++ ['"']

/-- One student object as `JSON.stringify(students, null, 2)` lays it out at
array depth (item indent two spaces, property indent four), properties in
insertion order `id, name, age, group`. -/
def studentSer (s : Student) : List Char :=
  "\x7b\n    \"id\": ".data ++ quoteJSONString s.id ++
  ",\n    \"name\": ".data ++ quoteJSONString s.name ++
  ",\n    \"age\": ".data ++ jsIntToString (s.age : Int) ++
  ",\n    \"group\": ".data ++ jsIntToString s.group ++
  "\n  \x7d".data

/-- Interpose a separator between serialized items. -/
def joinSep (sep : List Char) : List (List Char) → List Char
  | [] => []
  | [x] => x
  | x :: y :: rest => x ++ sep ++ joinSep sep (y :: rest)

/-- The body `saveToJSON` writes for a student collection:
`JSON.stringify(students, null, 2)`. -/
def saveToJSONBody (students : List Student) : String :=
  match students with
  | [] => "[]"
  | _ => String.mk ("[\n  ".data ++
      joinSep ",\n  ".data (students.map studentSer) ++ "\n]".data)

/-- Parsed JSON values (numbers restricted to the integers in scope). -/
inductive JValue
  | jnull
  | jbool (b : Bool)
  | jnum (n : Int)
  | jstr (s : String)
  | jarr (elems : List JValue)
  | jobj (fields : List (String × JValue))

/-- The JSON value a student record denotes. -/
def studentJValue (s : Student) : JValue :=
  .jobj [("id", .jstr s.id), ("name", .jstr s.name),
         ("age", .jnum (s.age : Int)), ("group", .jnum s.group)]

/-- JSON whitespace. -/
def skipWs (l : List Char) : List Char :=
  l.dropWhile fun c => c = ' ' ∨ c = Char.ofNat 9 ∨ c = Char.ofNat 10 ∨ c = Char.ofNat 13

/-- Value of one hexadecimal digit character (either case), or `none`. -/
def hexDigitVal (c : Char) : Option Nat :=
  if 48 ≤ c.toNat ∧ c.toNat ≤ 57 then some (c.toNat - 48)
  else if 97 ≤ c.toNat ∧ c.toNat ≤ 102 then some (c.toNat - 87)
  else if 65 ≤ c.toNat ∧ c.toNat ≤ 70 then some (c.toNat - 55)
  else none

/-- Unescape the body of a JSON string up to its closing quote, returning the
string and the remaining input.  (`\u` escapes are decoded for the `\u00XX`
forms the serializer emits; the documents in scope contain no others.) -/
def parseStringBody : Nat → List Char → Except String (List Char × List Char)
  | 0, _ => .error "Unexpected end of JSON input"
  | _, [] => .error "Unexpected end of JSON input"
  | fuel + 1, c :: r =>
    if c = '"' then .ok ([], r)
    else if c = '\\' then
      match r with
      | '"' :: r2 => (parseStringBody fuel r2).map fun p => ('"' :: p.1, p.2)
      | '\\' :: r2 => (parseStringBody fuel r2).map fun p => ('\\' :: p.1, p.2)
      | '/' :: r2 => (parseStringBody fuel r2).map fun p => ('/' :: p.1, p.2)
      | 'b' :: r2 => (parseStringBody fuel r2).map fun p => (Char.ofNat 8 :: p.1, p.2)
      | 't' :: r2 => (parseStringBody fuel r2).map fun p => (Char.ofNat 9 :: p.1, p.2)
      | 'n' :: r2 => (parseStringBody fuel r2).map fun p => (Char.ofNat 10 :: p.1, p.2)
      | 'f' :: r2 => (parseStringBody fuel r2).map fun p => (Char.ofNat 12 :: p.1, p.2)
      | 'r' :: r2 => (parseStringBody fuel r2).map fun p => (Char.ofNat 13 :: p.1, p.2)
      | 'u' :: '0' :: '0' :: h1 :: h2 :: r2 =>
        match hexDigitVal h1, hexDigitVal h2 with
        | some a, some b =>
          (parseStringBody fuel r2).map fun p => (Char.ofNat (a * 16 + b) :: p.1, p.2)
        | _, _ => .error "Bad escaped character in JSON"
      | _ => .error "Bad escaped character in JSON"
    else if c.toNat < 32 then .error "Bad control character in JSON string"
    else (parseStringBody fuel r).map fun p => (c :: p.1, p.2)

/-- Parse an integer numeral (optional minus, no leading zeros, no
fraction/exponent — see the scope note above). -/
def parseJSONNumber (l : List Char) : Except String (Int × List Char) :=
  let core : List Char → Except String (Nat × List Char) := fun r =>
    match r.takeWhile (·.isDigit) with
    | [] => .error "Unexpected token in JSON"
    | '0' :: _ :: _ => .error "Unexpected number in JSON"
    | ds => .ok (digitRunVal ds, r.dropWhile (·.isDigit))
  match l with
  | '-' :: r => (core r).map fun p => (-(p.1 : Int), p.2)
  | r => (core r).map fun p => ((p.1 : Int), p.2)

mutual

/-- `JSON.parse`'s value grammar, fuelled (the fuel is decremented on each
recursion step, and the entry point supplies more than the input length). -/
def parseJValue : Nat → List Char → Except String (JValue × List Char)
  | 0, _ => .error "Unexpected end of JSON input"
  | fuel + 1, l0 =>
    match skipWs l0 with
    | 'n' :: 'u' :: 'l' :: 'l' :: r => .ok (.jnull, r)
    | 't' :: 'r' :: 'u' :: 'e' :: r => .ok (.jbool true, r)
    | 'f' :: 'a' :: 'l' :: 's' :: 'e' :: r => .ok (.jbool false, r)
    | '"' :: r => (parseStringBody (r.length + 1) r).map fun p => (.jstr (String.mk p.1), p.2)
    | '[' :: r =>
      (match skipWs r with
       | ']' :: r2 => .ok (.jarr [], r2)
       | _ => (parseJElems fuel r).map fun p => (.jarr p.1, p.2))
    | '{' :: r =>
      (match skipWs r with
       | '}' :: r2 => .ok (.jobj [], r2)
       | _ => (parseJFields fuel r).map fun p => (.jobj p.1, p.2))
    | l => (parseJSONNumber l).map fun p => (.jnum p.1, p.2)

/-- Comma-separated array elements up to the closing bracket. -/
def parseJElems : Nat → List Char → Except String (List JValue × List Char)
  | 0, _ => .error "Unexpected end of JSON input"
  | fuel + 1, l =>
    match parseJValue fuel l with
    | .error e => .error e
    | .ok (v, r) =>
      match skipWs r with
      | ',' :: r2 => (parseJElems fuel r2).map fun p => (v :: p.1, p.2)
      | ']' :: r2 => .ok ([v], r2)
      | _ => .error "Expected comma or bracket in JSON array"

/-- Comma-separated `"key": value` fields up to the closing brace. -/
def parseJFields : Nat → List Char → Except String (List (String × JValue) × List Char)
  | 0, _ => .error "Unexpected end of JSON input"
  | fuel + 1, l =>
    match skipWs l with
    | '"' :: r =>
      (match parseStringBody (r.length + 1) r with
       | .error e => .error e
       | .ok (key, r2) =>
         match skipWs r2 with
         | ':' :: r3 =>
           (match parseJValue fuel r3 with
            | .error e => .error e
            | .ok (v, r4) =>
              match skipWs r4 with
              | ',' :: r5 => (parseJFields fuel r5).map fun p => ((String.mk key, v) :: p.1, p.2)
              | '}' :: r5 => .ok ([(String.mk key, v)], r5)
              | _ => .error "Expected comma or brace in JSON object")
         | _ => .error "Expected colon in JSON object")
    | _ => .error "Expected string key in JSON object"

end

/-- `JSON.parse` (hence `loadJSON`) on a document: a value followed by
nothing but whitespace. -/
def jsonParse (s : String) : Except String JValue :=
  match parseJValue (s.data.length + 1) s.data with
  | .error e => .error e
  | .ok (v, r) =>
    match skipWs r with
    | [] => .ok v
    | _ => .error "Unexpected non-whitespace character after JSON data"

/-! ## Auxiliary predicates used by the claim statements -/

/-- Whether a listed file's content is a JSON array — the files
`generateReport` actually aggregates ("surviving" files). -/
def isRecordsFile : FileContent → Bool
  | .records _ => true
  | _ => false

/-- Records carrying id-key `key` in one file (0 for skipped files). -/
def fileIdCount (key : String) : FileContent → Nat
  | .records students => (students.filter fun st => elemIdKey st = some key).length
  | _ => 0

/-- Records carrying id-key `key` across a list of files. -/
def listingIdCount (key : String) (files : List (String × FileContent)) : Nat :=
  (files.map fun f => fileIdCount key f.2).sum

/-- A trace discipline under which `start` is only ever invoked with no
snapshot operation in flight. -/
def startsSafe (intervalMs : Nat) : MgrState → List BEvent → Bool
  | _, [] => true
  | s, e :: es =>
    (e != BEvent.start || s.inFlight == 0) && startsSafe intervalMs (mgrStep intervalMs s e).1 es

/-- Consume an expected literal run of characters. -/
def dropLit : List Char → List Char → Option (List Char)
  | [], l => some l
  | c :: cs, x :: xs => if x = c then dropLit cs xs else none
  | _ :: _, [] => none

/-- Consume exactly `n` decimal digit characters. -/
def digitsRun : Nat → List Char → Option (List Char)
  | 0, l => some l
  | n + 1, x :: xs => if x.isDigit then digitsRun n xs else none
  | _ + 1, [] => none

/-- Consume one expected character. -/
def charTok (c : Char) : List Char → Option (List Char)
  | x :: xs => if x = c then some xs else none
  | [] => none

/-- Following the spec's words: a matcher for the documented filename
pattern `backup-YYYY-MM-DD-HH-mm-ss.backup.json` (four digits, then five
two-digit fields, hyphen-separated, with the literal suffix), stated
independently of the generator for comparison with the code's behaviour. -/
def matchesBackupPattern (s : String) : Bool :=
  match (dropLit "backup-".data s.data).bind (digitsRun 4) |>.bind (charTok '-')
      |>.bind (digitsRun 2) |>.bind (charTok '-') |>.bind (digitsRun 2)
      |>.bind (charTok '-') |>.bind (digitsRun 2) |>.bind (charTok '-')
      |>.bind (digitsRun 2) |>.bind (charTok '-') |>.bind (digitsRun 2) with
  | some r => r == ".backup.json".data
  | none => false

/-- Following the spec's words: the backup filename rendered from the LOCAL
time of the instant whose UTC components are `t`, in a host zone `tzMin`
minutes east of UTC — what the spec asserts `#generateBackupFileName`
produces. -/
def specLocalBackupFileName (tzMin : Int) (t : JsDateTime) : String :=
  let lt := dateTimeFromMs (civilToMs t + tzMin * 60000)
  "backup-" ++
    String.mk (pad4 lt.year ++ '-' :: pad2 lt.month ++ '-' :: pad2 lt.day ++
      '-' :: pad2 lt.hour ++ '-' :: pad2 lt.minute ++ '-' :: pad2 lt.second) ++
    ".backup.json"

/-! ## Claim C1 -/

/-- C1: the Reporter's timestamp derivation is NOT the inverse of the
Manager's filename generation.  At the failing input
2025-01-02T03:04:05.678Z the Manager names the file
`backup-2025-01-02-03-04-05.backup.json` (UTC fields); the Reporter's
structured parsing branch is dead (its guard `!timePart` is false because the
name contains no "T"), so the code evaluates
`new Date("2025-01-02-03-04-05")`, which V8 reads as *local* 2005-03-04
(the failed ISO-prefix attempt consumes and discards the date fields; the
remaining 03-04-05 go through the month/day/year heuristic).  The derived
timestamp differs from the generation time truncated to the second, and
recency ordering breaks: a file created 40 seconds later (seconds field 50)
derives the year 1950 and is ordered *before* one created at seconds 10
(year 2010). -/
theorem c1_parse_not_inverse_of_generate :
    generateBackupFileName ⟨2025, 1, 2, 3, 4, 5, 678⟩ =
      "backup-2025-01-02-03-04-05.backup.json" ∧
    parseTimestampFromFilename
        (jsPathJoin "backups" (generateBackupFileName ⟨2025, 1, 2, 3, 4, 5, 678⟩)) =
      .valid ⟨2005, 3, 4, 0, 0, 0, 0⟩ none ∧
    jsDateEpochMs 0 (parseTimestampFromFilename
        (jsPathJoin "backups" (generateBackupFileName ⟨2025, 1, 2, 3, 4, 5, 678⟩))) ≠
      some (civilToMs (truncToSecond ⟨2025, 1, 2, 3, 4, 5, 678⟩)) ∧
    civilToMs ⟨2025, 1, 2, 3, 4, 10, 0⟩ < civilToMs ⟨2025, 1, 2, 3, 4, 50, 0⟩ ∧
    jsDateGt 0
      (parseTimestampFromFilename
        (jsPathJoin "backups" (generateBackupFileName ⟨2025, 1, 2, 3, 4, 10, 0⟩)))
      (parseTimestampFromFilename
        (jsPathJoin "backups" (generateBackupFileName ⟨2025, 1, 2, 3, 4, 50, 0⟩))) = true := by
  decide

/-! ## Claim C7 -/

/-- C7: `start()` is idempotent.  A `start` on a running manager emits
exactly one `already-running` notification and changes nothing; two
consecutive `start`s from the initial state produce exactly one `started`
and one `already-running` notification, the timer armed by the first start
still armed (the second `start` returns before `setInterval`, so only one
timer is ever created); and a successful `start` launches its first snapshot
operation within the `start` step itself, not on a later tick. -/
theorem c7_start_idempotent :
    (∀ (intervalMs : Nat) (s : MgrState), isRunning s = true →
      mgrStep intervalMs s .start = (s, [.alreadyRunning])) ∧
    (∀ intervalMs : Nat, mgrRun intervalMs [.start, .start] =
      (⟨true, true, 0, 1⟩, [.started intervalMs, .alreadyRunning])) ∧
    (∀ intervalMs : Nat, (mgrRun intervalMs [.start]).1.isBackupInProgress = true ∧
      (mgrRun intervalMs [.start]).1.inFlight = 1 ∧
      isRunning (mgrRun intervalMs [.start]).1 = true) := by
  refine ⟨fun intervalMs s h => ?_, fun _ => rfl, fun _ => ⟨rfl, rfl, rfl⟩⟩
  unfold mgrStep
  simp [isRunning] at h
  simp [h]

/-- Witness for C7: the concrete hypotheses are dischargeable and the
conclusion holds at a running state. -/
theorem c7_start_idempotent_witness :
    mgrStep 30000 ⟨true, true, 0, 1⟩ .start = (⟨true, true, 0, 1⟩, [.alreadyRunning]) :=
  c7_start_idempotent.1 30000 ⟨true, true, 0, 1⟩ rfl

/-! ## Claim C10 -/

/-- C10: every failing snapshot operation (launched by `start` or by a tick,
both of which attach the same `.catch`) emits two notifications for the same
error, in order: `backup:failed` with the error and the filename (or `null`
when it was not yet computed), then `backup:error` with the same error —
because `#performBackup` re-throws after emitting `backup:failed` and the
launch site's `.catch` re-emits. -/
theorem c10_failed_then_error (intervalMs : Nat) (s : MgrState) (e : Nat)
    (fn : Option String) (h : 1 ≤ s.inFlight) :
    (mgrStep intervalMs s (.finish (.err e fn))).2 = [.failed e fn, .backupError e] := by
  unfold mgrStep
  have h0 : ¬ s.inFlight = 0 := by omega
  simp [h0]

/-- Witness for C10 at a state with one operation in flight. -/
theorem c10_failed_then_error_witness :
    (mgrStep 30000 ⟨true, true, 0, 1⟩ (.finish (.err 7 none))).2 =
      [.failed 7 none, .backupError 7] :=
  c10_failed_then_error 30000 ⟨true, true, 0, 1⟩ 7 none (by decide)

/-! ## Claim C8 -/

/-- C8: when the backup directory does not exist (ENOENT is mapped to an
empty listing) or contains no file ending in `.backup.json`,
`generateReport()` resolves — it does not reject — with a report consisting
of exactly a zero file count and the human-readable message
"No backup files found.", and no other fields. -/
theorem c8_zero_files_report :
    (∀ tzMin : Int, generateReport tzMin none = .ok (.noBackups 0 "No backup files found.")) ∧
    (∀ (tzMin : Int) (files : List (String × FileContent)),
      files.filter (fun f => jsEndsWith f.1 ".backup.json") = [] →
      generateReport tzMin (some files) = .ok (.noBackups 0 "No backup files found.")) := by
  refine ⟨fun _ => rfl, fun tzMin files h => ?_⟩
  unfold generateReport getBackupFiles
  simp [h]

/-- Witness for C8: a directory holding only a non-matching name. -/
theorem c8_zero_files_report_witness :
    generateReport 0 (some [("notes.txt", .readError)]) =
      .ok (.noBackups 0 "No backup files found.") :=
  c8_zero_files_report.2 0 [("notes.txt", .readError)] (by decide)

/-! ## Claim C3 -/

/-- The inductive invariant behind the at-most-one-in-flight property:
at most one operation in flight, and whenever no backup is marked in
progress, either nothing is in flight or the timer is disarmed (the
post-timeout zombie situation). -/
def MgrInv (s : MgrState) : Prop :=
  s.inFlight ≤ 1 ∧ (s.isBackupInProgress = false → s.inFlight = 0 ∨ s.timerArmed = false)

theorem mgrStep_preserves_inv (intervalMs : Nat) (s : MgrState) (e : BEvent)
    (hs : MgrInv s) (hsafe : e = .start → s.inFlight = 0) :
    MgrInv (mgrStep intervalMs s e).1 := by
  obtain ⟨h1, h2⟩ := hs
  cases e with
  | start =>
    have h0 : s.inFlight = 0 := hsafe rfl
    unfold mgrStep
    by_cases ha : s.timerArmed
    · simp [ha, MgrInv, h1, h0]
    · simp [ha, MgrInv, performBackupEntry, h0]
  | stop =>
    unfold mgrStep
    by_cases ha : s.timerArmed
    · simp [ha, MgrInv, h1]
    · simp [ha, MgrInv, h1, h2]
  | tick =>
    unfold mgrStep
    by_cases ha : s.timerArmed
    · by_cases hb : s.isBackupInProgress
      · by_cases hp : s.pendingIntervalsCount + 1 ≥ 3
        · simp [ha, hb, hp, MgrInv, h1]
        · simp [ha, hb, hp, MgrInv, h1, h2, hb]
      · have h0 : s.inFlight = 0 := by
          rcases h2 (by simpa using hb) with h | h
          · exact h
          · exact absurd ha (by simp [h])
        simp [ha, hb, MgrInv, performBackupEntry, h0]
    · simp [ha, MgrInv, h1, h2]
  | finish o =>
    unfold mgrStep
    by_cases h0 : s.inFlight = 0
    · simp [h0, MgrInv, h1, h2]
    · cases o with
      | ok fn => simp [h0, MgrInv]; omega
      | err e fn => simp [h0, MgrInv]; omega

theorem mgrRunFrom_preserves_inv (intervalMs : Nat) :
    ∀ (es : List BEvent) (s : MgrState), MgrInv s →
      startsSafe intervalMs s es = true → MgrInv (mgrRunFrom intervalMs s es).1 := by
  intro es
  induction es with
  | nil => intro s hs _; exact hs
  | cons e rest ih =>
    intro s hs hsafe
    unfold startsSafe at hsafe
    rw [Bool.and_eq_true] at hsafe
    obtain ⟨hhead, htail⟩ := hsafe
    have hsafe1 : e = .start → s.inFlight = 0 := by
      intro he
      rcases Bool.or_eq_true _ _ |>.mp hhead with h | h
      · exact absurd h (by simp [he])
      · simpa using h
    unfold mgrRunFrom
    exact ih (mgrStep intervalMs s e).1 (mgrStep_preserves_inv intervalMs s e hs hsafe1) htail

/-- C3 (amended): the per-tick launch path always respects the at-most-one
in-flight invariant (the tick handler checks `isBackupInProgress` before
launching), and for every event sequence in which `start()` is only invoked
while no operation is in flight, at most one snapshot operation is ever in
flight.  Unrestricted `start()` violates it — see the counterexample — since
`start`'s immediate `#performBackup` launches unconditionally. -/
theorem c3_at_most_one_in_flight (intervalMs : Nat) (es : List BEvent)
    (h : startsSafe intervalMs {} es = true) :
    (mgrRun intervalMs es).1.inFlight ≤ 1 :=
  (mgrRunFrom_preserves_inv intervalMs es {} (by constructor <;> simp) h).1

/-- Witness for C3 over a trace with a timeout, a zombie completion and a
restart. -/
theorem c3_at_most_one_in_flight_witness :
    (mgrRun 30000 [.start, .tick, .tick, .tick, .finish (.ok "f"), .start]).1.inFlight ≤ 1 :=
  c3_at_most_one_in_flight 30000 [.start, .tick, .tick, .tick, .finish (.ok "f"), .start]
    (by decide)

/-- Counterexample to C3 as stated: `start` → `stop` (with the immediate
snapshot still in flight) → `start` makes the second `start` launch its
immediate snapshot while the first one has not completed — two operations in
flight at once.  The claim's universal quantification over all
start/stop/tick/completion sequences fails on the code. -/
theorem c3_counterexample_start_stop_start :
    mgrRun 30000 [.start, .stop, .start] =
      (⟨true, true, 0, 2⟩, [.started 30000, .stopped, .started 30000]) := by
  decide


/-! ## Claim C2 -/

theorem mgrRunFrom_append (intervalMs : Nat) (s : MgrState) (u v : List BEvent) :
    mgrRunFrom intervalMs s (u ++ v) =
      ((mgrRunFrom intervalMs (mgrRunFrom intervalMs s u).1 v).1,
        (mgrRunFrom intervalMs s u).2 ++
          (mgrRunFrom intervalMs (mgrRunFrom intervalMs s u).1 v).2) := by
  induction u generalizing s with
  | nil => simp [mgrRunFrom]
  | cons e rest ih => simp [mgrRunFrom, ih]

theorem mgrRun_append_singleton (intervalMs : Nat) (es : List BEvent) (e : BEvent) :
    mgrRun intervalMs (es ++ [e]) =
      ((mgrStep intervalMs (mgrRun intervalMs es).1 e).1,
        (mgrRun intervalMs es).2 ++ (mgrStep intervalMs (mgrRun intervalMs es).1 e).2) := by
  unfold mgrRun
  rw [mgrRunFrom_append]
  simp [mgrRunFrom]

/-- Whenever a backup is marked in progress, at least one operation is in
flight (the flag is only ever raised by a `#performBackup` entry). -/
def FlagInFlight (s : MgrState) : Prop := s.isBackupInProgress = true → 1 ≤ s.inFlight

theorem mgrStep_flagInFlight (intervalMs : Nat) (s : MgrState) (e : BEvent)
    (h : FlagInFlight s) : FlagInFlight (mgrStep intervalMs s e).1 := by
  cases e with
  | start =>
    unfold mgrStep
    by_cases ha : s.timerArmed
    · simpa [ha] using h
    · simp [ha, FlagInFlight, performBackupEntry]
  | stop =>
    unfold mgrStep
    by_cases ha : s.timerArmed
    · simp [ha, FlagInFlight]
      intro hb
      exact h hb
    · simpa [ha] using h
  | tick =>
    unfold mgrStep
    by_cases ha : s.timerArmed
    · by_cases hb : s.isBackupInProgress
      · by_cases hp : s.pendingIntervalsCount + 1 ≥ 3
        · simp [ha, hb, hp, FlagInFlight]
        · simp [ha, hb, hp, FlagInFlight]
          exact h hb
      · simp [ha, hb, FlagInFlight, performBackupEntry]
    · simpa [ha] using h
  | finish o =>
    unfold mgrStep
    by_cases h0 : s.inFlight = 0
    · simpa [h0] using h
    · cases o <;> simp [h0, FlagInFlight]

theorem mgrRunFrom_flagInFlight (intervalMs : Nat) :
    ∀ (es : List BEvent) (s : MgrState), FlagInFlight s →
      FlagInFlight (mgrRunFrom intervalMs s es).1 := by
  intro es
  induction es with
  | nil => intro s hs; exact hs
  | cons e rest ih =>
    intro s hs
    exact ih _ (mgrStep_flagInFlight intervalMs s e hs)

theorem mgrRun_flagInFlight (intervalMs : Nat) (es : List BEvent) :
    FlagInFlight (mgrRun intervalMs es).1 :=
  mgrRunFrom_flagInFlight intervalMs es {} (by intro h; simp at h)

/-- Case analysis of one step ending with the in-progress flag set: the step
either freshly enters an operation (counter reset to zero), or it preserves
an already-in-progress operation, is not a completion, and raises the
counter by at most its tick count. -/
theorem mgrStep_pending_cases (intervalMs : Nat) (s0 : MgrState) (e : BEvent)
    (hfl : FlagInFlight s0)
    (h : (mgrStep intervalMs s0 e).1.isBackupInProgress = true) :
    (mgrStep intervalMs s0 e).1.pendingIntervalsCount = 0 ∨
    (s0.isBackupInProgress = true ∧
      (mgrStep intervalMs s0 e).1.pendingIntervalsCount ≤
        s0.pendingIntervalsCount + List.count BEvent.tick [e] ∧
      ∀ o, e ≠ BEvent.finish o) := by
  cases e with
  | start =>
    by_cases ha : s0.timerArmed
    · right
      refine ⟨by simpa [mgrStep, ha] using h, ?_, by intro o; simp⟩
      simp [mgrStep, ha, List.count_cons]
    · left; simp [mgrStep, ha, performBackupEntry]
  | stop =>
    right
    by_cases ha : s0.timerArmed
    · exact ⟨by simpa [mgrStep, ha] using h, by simp [mgrStep, ha, List.count_cons], by intro o; simp⟩
    · exact ⟨by simpa [mgrStep, ha] using h, by simp [mgrStep, ha, List.count_cons], by intro o; simp⟩
  | tick =>
    by_cases ha : s0.timerArmed
    · by_cases hb : s0.isBackupInProgress
      · by_cases hp : s0.pendingIntervalsCount + 1 ≥ 3
        · exfalso; simp [mgrStep, ha, hb, hp] at h
        · right
          refine ⟨hb, ?_, by intro o; simp⟩
          simp [mgrStep, ha, hb, hp, List.count_cons]
      · left; simp [mgrStep, ha, hb, performBackupEntry]
    · right
      refine ⟨by simpa [mgrStep, ha] using h, ?_, by intro o; simp⟩
      simp [mgrStep, ha, List.count_cons]
  | finish o =>
    exfalso
    by_cases h0 : s0.inFlight = 0
    · have hb : s0.isBackupInProgress = true := by
        cases o <;> simpa [mgrStep, h0] using h
      have := hfl hb
      omega
    · cases o <;> simp [mgrStep, h0] at h

/-- The overlap counter counts consecutive ticks witnessed by a single
operation: whenever a backup is in progress after a trace, the trace splits
into a part after which the operation was freshly entered (flag set, counter
zero) and a remainder containing no completion event and at least
`pendingIntervalsCount` many ticks. -/
theorem pending_counts_single_op (intervalMs : Nat) (es : List BEvent)
    (h : (mgrRun intervalMs es).1.isBackupInProgress = true) :
    ∃ u v, es = u ++ v ∧
      (mgrRun intervalMs u).1.isBackupInProgress = true ∧
      (mgrRun intervalMs u).1.pendingIntervalsCount = 0 ∧
      (∀ o, BEvent.finish o ∉ v) ∧
      (mgrRun intervalMs es).1.pendingIntervalsCount ≤ v.count BEvent.tick := by
  induction es using List.reverseRecOn with
  | nil => simp [mgrRun, mgrRunFrom] at h
  | append_singleton es e ih =>
    rw [mgrRun_append_singleton] at h
    rcases mgrStep_pending_cases intervalMs (mgrRun intervalMs es).1 e
        (mgrRun_flagInFlight intervalMs es) h with hp | ⟨hb, hle, hnf⟩
    · refine ⟨es ++ [e], [], by simp, ?_, ?_, by simp, ?_⟩
      · rw [mgrRun_append_singleton]; exact h
      · rw [mgrRun_append_singleton]; exact hp
      · rw [mgrRun_append_singleton]; simpa using hp.le
    · obtain ⟨u, v, hev, hu1, hu2, hv, hcnt⟩ := ih hb
      refine ⟨u, v ++ [e], by rw [hev, List.append_assoc], hu1, hu2, ?_, ?_⟩
      · intro o hmem
        rcases List.mem_append.mp hmem with hm | hm
        · exact hv o hm
        · simp at hm; exact (hnf o) hm.symm
      · rw [mgrRun_append_singleton]
        simp only [List.count_append]
        omega

/-- Step-level converse: a `timeout` notification is emitted only by a tick
that finds a backup in progress with the overlap counter already at two (its
third consecutive overlapped tick), and such a step emits nothing else. -/
theorem timeout_step_inversion (intervalMs : Nat) (s : MgrState) (e : BEvent)
    (h : BackupNotif.timeout ∈ (mgrStep intervalMs s e).2) :
    e = .tick ∧ s.timerArmed = true ∧ s.isBackupInProgress = true ∧
    2 ≤ s.pendingIntervalsCount ∧ (mgrStep intervalMs s e).2 = [.timeout] := by
  cases e with
  | start => by_cases ha : s.timerArmed <;> simp [mgrStep, ha] at h
  | stop => by_cases ha : s.timerArmed <;> simp [mgrStep, ha] at h
  | finish o =>
    by_cases h0 : s.inFlight = 0
    · cases o <;> simp [mgrStep, h0] at h
    · cases o <;> simp [mgrStep, h0] at h
  | tick =>
    by_cases ha : s.timerArmed
    · by_cases hb : s.isBackupInProgress
      · by_cases hp : s.pendingIntervalsCount + 1 ≥ 3
        · exact ⟨rfl, ha, hb, by omega, by simp [mgrStep, ha, hb, hp]⟩
        · simp [mgrStep, ha, hb, hp] at h
      · simp [mgrStep, ha, hb, performBackupEntry] at h
    · simp [mgrStep, ha] at h

/-- From an in-progress state with counter zero, the next two ticks emit
nothing and the third emits exactly one `timeout`, disarming the timer and
clearing the flag. -/
theorem three_ticks_timeout (intervalMs : Nat) (s : MgrState)
    (ha : s.timerArmed = true) (hb : s.isBackupInProgress = true)
    (hp : s.pendingIntervalsCount = 0) :
    (mgrRunFrom intervalMs s [.tick]).2 = [] ∧
    (mgrRunFrom intervalMs s [.tick, .tick]).2 = [] ∧
    (mgrRunFrom intervalMs s [.tick, .tick, .tick]).2 = [.timeout] ∧
    (mgrRunFrom intervalMs s [.tick, .tick, .tick]).1.timerArmed = false ∧
    (mgrRunFrom intervalMs s [.tick, .tick, .tick]).1.isBackupInProgress = false ∧
    isRunning (mgrRunFrom intervalMs s [.tick, .tick, .tick]).1 = false := by
  simp [mgrRunFrom, mgrStep, ha, hb, hp, isRunning]

/-- After any state with the timer disarmed (in particular the post-timeout
state), as long as `start()` is not called the timer stays disarmed, no new
operation is launched, and the only notifications that can still appear are
the completion/failure notifications of already-in-flight operations and
`not-running` replies to `stop()`. -/
theorem disarmed_quiescence (intervalMs : Nat) :
    ∀ (es : List BEvent) (s : MgrState), s.timerArmed = false →
      (∀ e ∈ es, e ≠ BEvent.start) →
      (mgrRunFrom intervalMs s es).1.timerArmed = false ∧
      (mgrRunFrom intervalMs s es).1.inFlight ≤ s.inFlight ∧
      ∀ n ∈ (mgrRunFrom intervalMs s es).2,
        (∃ fn, n = BackupNotif.completed fn) ∨
        (∃ e' fn, n = BackupNotif.failed e' fn) ∨
        (∃ e', n = BackupNotif.backupError e') ∨ n = BackupNotif.notRunning := by
  intro es
  induction es with
  | nil => intro s hs _; exact ⟨hs, le_refl _, by simp [mgrRunFrom]⟩
  | cons e rest ih =>
    intro s hs hno
    have hne : e ≠ BEvent.start := hno e (by simp)
    have hrest : ∀ x ∈ rest, x ≠ BEvent.start := fun x hx => hno x (by simp [hx])
    have hstep : (mgrStep intervalMs s e).1.timerArmed = false ∧
        (mgrStep intervalMs s e).1.inFlight ≤ s.inFlight ∧
        ∀ n ∈ (mgrStep intervalMs s e).2,
          (∃ fn, n = BackupNotif.completed fn) ∨
          (∃ e' fn, n = BackupNotif.failed e' fn) ∨
          (∃ e', n = BackupNotif.backupError e') ∨ n = BackupNotif.notRunning := by
      cases e with
      | start => exact absurd rfl hne
      | stop => simp [mgrStep, hs]
      | tick => simp [mgrStep, hs]
      | finish o =>
        by_cases h0 : s.inFlight = 0
        · cases o <;> simp [mgrStep, h0, hs]
        · cases o <;> simp [mgrStep, h0, hs]
    obtain ⟨ha1, ha2, ha3⟩ := hstep
    obtain ⟨hb1, hb2, hb3⟩ := ih (mgrStep intervalMs s e).1 ha1 hrest
    refine ⟨hb1, le_trans hb2 ha2, ?_⟩
    intro n hn
    simp only [mgrRunFrom] at hn
    rcases List.mem_append.mp hn with hm | hm
    · exact ha3 n hm
    · exact hb3 n hm

/-- C2 (amended): (i) from an in-flight operation with a fresh overlap
counter, the first two overlapped ticks emit nothing and the third emits
exactly one `timeout` notification, after which the timer is disarmed, the
running flag is cleared and `isRunning()` is false; (ii) `timeout` is emitted
only at a tick whose state has a backup in progress with counter at least 2,
and such a step emits exactly the one `timeout`; (iii) the counter counts
ticks spanned by a single operation — whenever the flag is up, the trace
ends in a span that begins at that operation's entry (counter reset to zero
there, and also reset at every completion, so overlaps never accumulate
across operations) and contains no completion and at least `counter` many
ticks; (iv) after the forced stop, while `start()` is not called again, no
new snapshot operation is launched and the only notifications that can still
fire are the completion/failure notifications of the operation(s) already in
flight (and `not-running`) — the claim's stronger reading, that *no*
snapshot notification fires after the forced stop, is refuted by the
counterexample in which the stuck operation finishes after the timeout. -/
theorem c2_timeout_semantics :
    (∀ (intervalMs : Nat) (s : MgrState),
      s.timerArmed = true → s.isBackupInProgress = true →
      s.pendingIntervalsCount = 0 →
      (mgrRunFrom intervalMs s [.tick]).2 = [] ∧
      (mgrRunFrom intervalMs s [.tick, .tick]).2 = [] ∧
      (mgrRunFrom intervalMs s [.tick, .tick, .tick]).2 = [.timeout] ∧
      (mgrRunFrom intervalMs s [.tick, .tick, .tick]).1.timerArmed = false ∧
      (mgrRunFrom intervalMs s [.tick, .tick, .tick]).1.isBackupInProgress = false ∧
      isRunning (mgrRunFrom intervalMs s [.tick, .tick, .tick]).1 = false) ∧
    (∀ (intervalMs : Nat) (s : MgrState) (e : BEvent),
      BackupNotif.timeout ∈ (mgrStep intervalMs s e).2 →
      e = .tick ∧ s.timerArmed = true ∧ s.isBackupInProgress = true ∧
      2 ≤ s.pendingIntervalsCount ∧ (mgrStep intervalMs s e).2 = [.timeout]) ∧
    (∀ (intervalMs : Nat) (es : List BEvent),
      (mgrRun intervalMs es).1.isBackupInProgress = true →
      ∃ u v, es = u ++ v ∧
        (mgrRun intervalMs u).1.isBackupInProgress = true ∧
        (mgrRun intervalMs u).1.pendingIntervalsCount = 0 ∧
        (∀ o, BEvent.finish o ∉ v) ∧
        (mgrRun intervalMs es).1.pendingIntervalsCount ≤ v.count BEvent.tick) ∧
    (∀ (intervalMs : Nat) (es : List BEvent) (s : MgrState),
      s.timerArmed = false → (∀ e ∈ es, e ≠ BEvent.start) →
      (mgrRunFrom intervalMs s es).1.timerArmed = false ∧
      (mgrRunFrom intervalMs s es).1.inFlight ≤ s.inFlight ∧
      ∀ n ∈ (mgrRunFrom intervalMs s es).2,
        (∃ fn, n = BackupNotif.completed fn) ∨
        (∃ e' fn, n = BackupNotif.failed e' fn) ∨
        (∃ e', n = BackupNotif.backupError e') ∨ n = BackupNotif.notRunning) :=
  ⟨three_ticks_timeout, timeout_step_inversion, pending_counts_single_op,
    fun intervalMs es s => disarmed_quiescence intervalMs es s⟩

/-- Witness for C2: the three-tick scenario from a freshly-entered operation
emits exactly one timeout and leaves the manager stopped. -/
theorem c2_timeout_semantics_witness :
    (mgrRunFrom 30000 ⟨true, true, 0, 1⟩ [.tick, .tick, .tick]).2 = [.timeout] ∧
    isRunning (mgrRunFrom 30000 ⟨true, true, 0, 1⟩ [.tick, .tick, .tick]).1 = false :=
  ⟨(c2_timeout_semantics.1 30000 ⟨true, true, 0, 1⟩ rfl rfl rfl).2.2.1,
    (c2_timeout_semantics.1 30000 ⟨true, true, 0, 1⟩ rfl rfl rfl).2.2.2.2.2⟩

/-- Counterexample to C2 as stated: if the stuck operation eventually
finishes after the forced stop, its `backup:completed` notification still
fires — a snapshot notification after the timeout, contradicting "no
snapshot notifications fire after the forced stop". -/
theorem c2_counterexample_completed_after_timeout :
    (mgrRun 30000 [.start, .tick, .tick, .tick,
        .finish (.ok "backup-2025-01-02-03-04-05.backup.json")]).2 =
      [.started 30000, .timeout,
        .completed "backup-2025-01-02-03-04-05.backup.json"] := by
  decide

/-! ## Claim C6 -/

theorem foldl_reportStep_filter (tzMin : Int) :
    ∀ (files : List (String × FileContent)) (a : RepAcc),
      files.foldl (reportStep tzMin) a =
        (files.filter fun f => isRecordsFile f.2).foldl (reportStep tzMin) a := by
  intro files
  induction files with
  | nil => intro a; rfl
  | cons f rest ih =>
    intro a
    rcases f with ⟨name, content⟩
    cases content with
    | readError => simpa [isRecordsFile, reportStep] using ih a
    | nonArrayJSON => simpa [isRecordsFile, reportStep] using ih a
    | records students => simp [isRecordsFile, ih]

theorem foldl_latestDate_not_invalid (tzMin : Int) :
    ∀ (files : List (String × FileContent)) (a : RepAcc),
      (∀ d, a.latestDate = some d → d ≠ JSDate.invalid) →
      (∀ f ∈ files, isRecordsFile f.2 = true →
        parseTimestampFromFilename f.1 ≠ JSDate.invalid) →
      ∀ d, (files.foldl (reportStep tzMin) a).latestDate = some d → d ≠ JSDate.invalid := by
  intro files
  induction files with
  | nil => intro a ha _ d hd; exact ha d hd
  | cons f rest ih =>
    intro a ha hf
    simp only [List.foldl_cons]
    apply ih
    · intro d' hd'
      rcases f with ⟨name, content⟩
      cases content with
      | readError => exact ha d' hd'
      | nonArrayJSON => exact ha d' hd'
      | records students =>
        unfold reportStep at hd'
        by_cases hc : (a.latestDate.isNone ||
            jsDateGt tzMin (parseTimestampFromFilename name) (a.latestDate.getD .invalid)) = true
        · simp only [hc, if_true] at hd'
          simp at hd'
          rw [← hd']
          exact hf (name, .records students) (by simp) (by simp [isRecordsFile])
        · simp only [Bool.not_eq_true] at hc
          simp only [hc, if_false] at hd'
          exact ha d' hd'
    · exact fun x hx h => hf x (by simp [hx]) h

theorem jsDateToISOString_ok (tzMin : Int) (d : JSDate) (h : d ≠ JSDate.invalid) :
    ∃ iso, jsDateToISOString tzMin d = .ok iso := by
  cases d with
  | invalid => exact absurd rfl h
  | valid t zone => exact ⟨_, rfl⟩

theorem generateReport_no_abort (tzMin : Int) (files : List (String × FileContent))
    (hf : ∀ f ∈ getBackupFiles "backups" (some files), isRecordsFile f.2 = true →
      parseTimestampFromFilename f.1 ≠ JSDate.invalid) :
    ∃ r, generateReport tzMin (some files) = .ok r := by
  unfold generateReport
  by_cases h0 : (getBackupFiles "backups" (some files)).length = 0
  · simp [h0]
  · simp only [h0, if_false]
    rcases hacc : ((getBackupFiles "backups" (some files)).foldl (reportStep tzMin)
        {}).latestDate with _ | d
    · exact ⟨_, rfl⟩
    · dsimp only
      have hd : d ≠ JSDate.invalid :=
        foldl_latestDate_not_invalid tzMin (getBackupFiles "backups" (some files)) {}
          (by intro d' hd'; simp at hd') hf d hacc
      obtain ⟨iso, hiso⟩ := jsDateToISOString_ok tzMin d hd
      rw [hiso]
      exact ⟨_, rfl⟩

/-- C6 (amended): `generateReport` skips exactly the files that fail to read
or parse or parse to a non-array — the aggregation over a listing equals the
aggregation over its surviving (array-parsed) files alone — and, provided
every surviving file's name derives a valid date (which every
Manager-generated name does), it never aborts; in the claim's concrete
instance (one unreadable file, one valid generated-name file with two
records) the totals reflect only the valid file: 1 file with records, 2
records in total, average 2.00.  The unconditional "never aborts" is refuted
by the counterexample: a surviving file whose name derives an Invalid Date
first makes `latestDate.toISOString()` throw. -/
theorem c6_skips_bad_files_and_totals :
    (∀ (tzMin : Int) (a : RepAcc) (files : List (String × FileContent)),
      files.foldl (reportStep tzMin) a =
        (files.filter fun f => isRecordsFile f.2).foldl (reportStep tzMin) a) ∧
    (∀ (tzMin : Int) (files : List (String × FileContent)),
      (∀ f ∈ getBackupFiles "backups" (some files), isRecordsFile f.2 = true →
        parseTimestampFromFilename f.1 ≠ JSDate.invalid) →
      ∃ r, generateReport tzMin (some files) = .ok r) ∧
    (generateReport 0 (some [("corrupt.backup.json", .readError),
        ("backup-2025-01-02-03-04-05.backup.json",
          .records [.record (some (.vstr "1")), .record (some (.vstr "2"))])]) =
      .ok (.stats 2 (some "backup-2025-01-02-03-04-05.backup.json")
        (some "2005-03-04T00:00:00.000Z") [("1", 1), ("2", 1)] 200)) ∧
    (((getBackupFiles "backups" (some [("corrupt.backup.json", .readError),
        ("backup-2025-01-02-03-04-05.backup.json",
          .records [.record (some (.vstr "1")), .record (some (.vstr "2"))])])).foldl
        (reportStep 0) {}).totalStudents = 2 ∧
      ((getBackupFiles "backups" (some [("corrupt.backup.json", .readError),
        ("backup-2025-01-02-03-04-05.backup.json",
          .records [.record (some (.vstr "1")), .record (some (.vstr "2"))])])).foldl
        (reportStep 0) {}).totalFilesWithStudents = 1) :=
  ⟨fun tzMin a files => foldl_reportStep_filter tzMin files a,
    generateReport_no_abort, by decide, by decide, by decide⟩

/-- Witness for C6: the no-abort part applied to the claim's concrete
instance, whose surviving file carries a generated name. -/
theorem c6_skips_bad_files_and_totals_witness :
    ∃ r, generateReport 0 (some [("corrupt.backup.json", .readError),
        ("backup-2025-01-02-03-04-05.backup.json",
          .records [.record (some (.vstr "1")), .record (some (.vstr "2"))])]) = .ok r :=
  c6_skips_bad_files_and_totals.2.1 0 _ (by decide)

/-- Counterexample to C6 as stated: a listing in which one file fails to
parse (satisfying the claim's hypothesis) and the other parses fine but is
named `x.backup.json` makes `generateReport` abort — the surviving file's
derived date is the Invalid Date, it becomes `latestDate`, and
`latestDate.toISOString()` throws `RangeError`, rejecting the whole report
instead of "never aborts". -/
theorem c6_counterexample_abort_on_invalid_latest :
    generateReport 0 (some [("x.backup.json",
        .records [.record (some (.vstr "1")), .record (some (.vstr "2"))]),
      ("corrupt.backup.json", .readError)]) =
      .error "RangeError: Invalid time value" := by
  decide

/-! ## Claim C5: digit-shape lemmas for the filename rendering -/

theorem natDigitsAux_succ (n f : Nat) :
    natDigitsAux n (f + 1) =
      if n < 10 then [digitChar n] else natDigitsAux (n / 10) f ++ [digitChar (n % 10)] := rfl

theorem natDigitsAux_fuel : ∀ (fuel n : Nat), n + 1 ≤ fuel → natDigitsAux n fuel = natDigits n := by
  intro fuel
  induction fuel using Nat.strong_induction_on with
  | _ f ih =>
    intro n h
    match f, h with
    | f' + 1, h =>
      by_cases h10 : n < 10
      · simp [natDigitsAux_succ, natDigits, h10]
      · have hdiv : n / 10 < n := Nat.div_lt_self (by omega) (by omega)
        rw [natDigitsAux_succ, if_neg h10]
        have hrhs : natDigits n = natDigitsAux (n / 10) n ++ [digitChar (n % 10)] := by
          show natDigitsAux n (n + 1) = _
          rw [natDigitsAux_succ, if_neg h10]
        rw [hrhs, ih f' (by omega) (n / 10) (by omega), ih n (by omega) (n / 10) (by omega)]

/-- The defining unfolding of `natDigits`. -/
theorem natDigits_eq (n : Nat) :
    natDigits n = if n < 10 then [digitChar n] else natDigits (n / 10) ++ [digitChar (n % 10)] := by
  by_cases h10 : n < 10
  · simp [natDigits, natDigitsAux_succ, h10]
  · show natDigitsAux n (n + 1) = _
    rw [natDigitsAux_succ, if_neg h10, if_neg h10,
      natDigitsAux_fuel n (n / 10) (by
        have := Nat.div_lt_self (show 0 < n by omega) (show 1 < 10 by omega)
        omega)]

theorem natDigits_two (n : Nat) (h1 : 10 ≤ n) (h2 : n < 100) :
    natDigits n = [digitChar (n / 10), digitChar (n % 10)] := by
  rw [natDigits_eq n, if_neg (by omega), natDigits_eq (n / 10), if_pos (by omega)]
  rfl

theorem natDigits_three (n : Nat) (h1 : 100 ≤ n) (h2 : n < 1000) :
    natDigits n = [digitChar (n / 100), digitChar (n / 10 % 10), digitChar (n % 10)] := by
  rw [natDigits_eq n, if_neg (by omega), natDigits_two (n / 10) (by omega) (by omega),
    Nat.div_div_eq_div_mul]
  rfl

theorem natDigits_four (n : Nat) (h1 : 1000 ≤ n) (h2 : n ≤ 9999) :
    natDigits n = [digitChar (n / 1000), digitChar (n / 100 % 10),
      digitChar (n / 10 % 10), digitChar (n % 10)] := by
  rw [natDigits_eq n, if_neg (by omega), natDigits_three (n / 10) (by omega) (by omega),
    Nat.div_div_eq_div_mul, Nat.div_div_eq_div_mul]
  rfl

theorem digitChar_zero : digitChar 0 = '0' := by decide

theorem pad2_eq (n : Nat) (h : n ≤ 99) :
    pad2 n = [digitChar (n / 10), digitChar (n % 10)] := by
  unfold pad2
  by_cases h10 : n < 10
  · rw [if_pos h10, natDigits_eq n, if_pos h10,
      Nat.div_eq_of_lt h10, Nat.mod_eq_of_lt h10, digitChar_zero]
  · rw [if_neg h10, natDigits_two n (by omega) (by omega)]

theorem pad4_eq (n : Nat) (h : n ≤ 9999) :
    pad4 n = [digitChar (n / 1000), digitChar (n / 100 % 10),
      digitChar (n / 10 % 10), digitChar (n % 10)] := by
  unfold pad4
  by_cases ha : n < 10
  · rw [if_pos ha, natDigits_eq n, if_pos ha]
    have e1 : n / 1000 = 0 := by omega
    have e2 : n / 100 % 10 = 0 := by omega
    have e3 : n / 10 % 10 = 0 := by omega
    have e4 : n % 10 = n := by omega
    rw [e1, e2, e3, e4, digitChar_zero]
  · by_cases hb : n < 100
    · rw [if_neg ha, if_pos hb, natDigits_two n (by omega) hb]
      have e1 : n / 1000 = 0 := by omega
      have e2 : n / 100 % 10 = 0 := by omega
      have e3 : n / 10 % 10 = n / 10 := by omega
      rw [e1, e2, e3, digitChar_zero]
    · by_cases hc : n < 1000
      · rw [if_neg ha, if_neg hb, if_pos hc, natDigits_three n (by omega) hc]
        have e1 : n / 1000 = 0 := by omega
        have e2 : n / 100 % 10 = n / 100 := by omega
        rw [e1, e2, digitChar_zero]
      · rw [if_neg ha, if_neg hb, if_neg hc, natDigits_four n (by omega) h]

/-- Every character produced by the decimal renderer is a digit character. -/
def DigitCharP (c : Char) : Prop := ∃ d, d < 10 ∧ c = digitChar d

theorem digitChar_digitP (d : Nat) (h : d < 10) : DigitCharP (digitChar d) := ⟨d, h, rfl⟩

theorem digitP_isDigit (c : Char) (h : DigitCharP c) : c.isDigit = true := by
  obtain ⟨d, hd, rfl⟩ := h
  interval_cases d <;> decide

theorem digitP_ne (c : Char) (h : DigitCharP c) :
    c ≠ 'T' ∧ c ≠ ':' ∧ c ≠ '.' ∧ c ≠ '-' := by
  obtain ⟨d, hd, rfl⟩ := h
  interval_cases d <;> refine ⟨by decide, by decide, by decide, by decide⟩

theorem pad2_all_digit (n : Nat) (h : n ≤ 99) : ∀ c ∈ pad2 n, DigitCharP c := by
  rw [pad2_eq n h]
  intro c hc
  simp at hc
  rcases hc with rfl | rfl
  · exact digitChar_digitP _ (by omega)
  · exact digitChar_digitP _ (by omega)

theorem pad4_all_digit (n : Nat) (h : n ≤ 9999) : ∀ c ∈ pad4 n, DigitCharP c := by
  rw [pad4_eq n h]
  intro c hc
  simp at hc
  rcases hc with rfl | rfl | rfl | rfl
  · exact digitChar_digitP _ (by omega)
  · exact digitChar_digitP _ (by omega)
  · exact digitChar_digitP _ (by omega)
  · exact digitChar_digitP _ (by omega)

theorem digit_list_avoid (l : List Char) (hl : ∀ x ∈ l, DigitCharP x) (c : Char)
    (hc : c = 'T' ∨ c = ':' ∨ c = '.' ∨ c = '-') : ∀ x ∈ l, x ≠ c := by
  intro x hx
  obtain ⟨hT, hco, hdot, hdash⟩ := digitP_ne x (hl x hx)
  rcases hc with rfl | rfl | rfl | rfl
  · exact hT
  · exact hco
  · exact hdot
  · exact hdash

theorem replaceFirstChar_cons_ne (c r x : Char) (hx : x ≠ c) (l : List Char) :
    replaceFirstChar c r (x :: l) = x :: replaceFirstChar c r l := by
  simp [replaceFirstChar, hx]

theorem replaceFirstChar_notMem (c r : Char) :
    ∀ (a : List Char), (∀ x ∈ a, x ≠ c) → ∀ b,
      replaceFirstChar c r (a ++ b) = a ++ replaceFirstChar c r b := by
  intro a
  induction a with
  | nil => intro _ b; rfl
  | cons x xs ih =>
    intro h b
    have hx : x ≠ c := h x (by simp)
    show replaceFirstChar c r (x :: (xs ++ b)) = x :: (xs ++ replaceFirstChar c r b)
    rw [replaceFirstChar_cons_ne c r x hx, ih (fun y hy => h y (by simp [hy])) b]

theorem replaceFirstChar_cons_self (c r : Char) (l : List Char) :
    replaceFirstChar c r (c :: l) = r :: l := by
  simp [replaceFirstChar]

theorem replaceAllChar_notMem (c r : Char) (a : List Char) (h : ∀ x ∈ a, x ≠ c) :
    replaceAllChar c r a = a := by
  unfold replaceAllChar
  conv_rhs => rw [← List.map_id a]
  apply List.map_congr_left
  intro x hx
  simp [h x hx]

theorem takeBeforeDot_cons_ne (x : Char) (hx : x ≠ '.') (l : List Char) :
    takeBeforeDot (x :: l) = x :: takeBeforeDot l := by
  simp [takeBeforeDot, hx]

theorem takeBeforeDot_notMem :
    ∀ (a : List Char), (∀ x ∈ a, x ≠ '.') → ∀ b,
      takeBeforeDot (a ++ b) = a ++ takeBeforeDot b := by
  intro a
  induction a with
  | nil => intro _ b; rfl
  | cons x xs ih =>
    intro h b
    have hx : x ≠ '.' := h x (by simp)
    simp only [List.cons_append]
    rw [takeBeforeDot_cons_ne x hx, ih (fun y hy => h y (by simp [hy])) b]


theorem takeBeforeDot_cons_dot (l : List Char) : takeBeforeDot ('.' :: l) = [] := rfl

/-- The generated filename, character by character: `backup-` followed by the
UTC year, month, day, hour, minute and second fields, zero-padded and
hyphen-separated, with the literal suffix `.backup.json`. -/
theorem generateBackupFileName_data (t : JsDateTime) (h : ValidDateTime t) :
    (generateBackupFileName t).data =
      'b' :: 'a' :: 'c' :: 'k' :: 'u' :: 'p' :: '-' ::
        (pad4 t.year ++ '-' :: (pad2 t.month ++ '-' :: (pad2 t.day ++
          '-' :: (pad2 t.hour ++ '-' :: (pad2 t.minute ++ '-' :: (pad2 t.second ++
            ".backup.json".data)))))) := by
  obtain ⟨hy, hmo1, hmo2, hd1, hd2, hh, hmi, hs, hms⟩ := h
  have a4 : ∀ x ∈ pad4 t.year, DigitCharP x := pad4_all_digit _ hy
  have amo : ∀ x ∈ pad2 t.month, DigitCharP x := pad2_all_digit _ (by omega)
  have ad : ∀ x ∈ pad2 t.day, DigitCharP x := pad2_all_digit _ (by omega)
  have ah : ∀ x ∈ pad2 t.hour, DigitCharP x := pad2_all_digit _ (by omega)
  have ami : ∀ x ∈ pad2 t.minute, DigitCharP x := pad2_all_digit _ (by omega)
  have as' : ∀ x ∈ pad2 t.second, DigitCharP x := pad2_all_digit _ (by omega)
  show ('b' :: 'a' :: 'c' :: 'k' :: 'u' :: 'p' :: '-' ::
      takeBeforeDot (replaceAllChar ':' '-' (replaceFirstChar 'T' '-' (toISOString t).data))) ++
      ".backup.json".data = _
  have hiso : (toISOString t).data =
      pad4 t.year ++ '-' :: (pad2 t.month ++ '-' :: (pad2 t.day ++
        'T' :: (pad2 t.hour ++ ':' :: (pad2 t.minute ++ ':' :: (pad2 t.second ++
          '.' :: (pad3 t.ms ++ ['Z'])))))) := rfl
  rw [hiso]
  rw [replaceFirstChar_notMem 'T' '-' _ (digit_list_avoid _ a4 _ (by tauto)),
    replaceFirstChar_cons_ne 'T' '-' '-' (by decide),
    replaceFirstChar_notMem 'T' '-' _ (digit_list_avoid _ amo _ (by tauto)),
    replaceFirstChar_cons_ne 'T' '-' '-' (by decide),
    replaceFirstChar_notMem 'T' '-' _ (digit_list_avoid _ ad _ (by tauto)),
    replaceFirstChar_cons_self]
  unfold replaceAllChar
  simp only [List.map_append, List.map_cons, List.map_nil, reduceIte, ite_self]
  rw [show (if '.' = ':' then '-' else '.') = '.' from by decide,
    show (if 'Z' = ':' then '-' else 'Z') = 'Z' from by decide]
  rw [show List.map (fun x => if x = ':' then '-' else x) (pad4 t.year) = pad4 t.year from
      replaceAllChar_notMem ':' '-' _ (digit_list_avoid _ a4 _ (by tauto)),
    show List.map (fun x => if x = ':' then '-' else x) (pad2 t.month) = pad2 t.month from
      replaceAllChar_notMem ':' '-' _ (digit_list_avoid _ amo _ (by tauto)),
    show List.map (fun x => if x = ':' then '-' else x) (pad2 t.day) = pad2 t.day from
      replaceAllChar_notMem ':' '-' _ (digit_list_avoid _ ad _ (by tauto)),
    show List.map (fun x => if x = ':' then '-' else x) (pad2 t.hour) = pad2 t.hour from
      replaceAllChar_notMem ':' '-' _ (digit_list_avoid _ ah _ (by tauto)),
    show List.map (fun x => if x = ':' then '-' else x) (pad2 t.minute) = pad2 t.minute from
      replaceAllChar_notMem ':' '-' _ (digit_list_avoid _ ami _ (by tauto)),
    show List.map (fun x => if x = ':' then '-' else x) (pad2 t.second) = pad2 t.second from
      replaceAllChar_notMem ':' '-' _ (digit_list_avoid _ as' _ (by tauto))]
  rw [takeBeforeDot_notMem _ (digit_list_avoid _ a4 _ (by tauto)),
    takeBeforeDot_cons_ne '-' (by decide),
    takeBeforeDot_notMem _ (digit_list_avoid _ amo _ (by tauto)),
    takeBeforeDot_cons_ne '-' (by decide),
    takeBeforeDot_notMem _ (digit_list_avoid _ ad _ (by tauto)),
    takeBeforeDot_cons_ne '-' (by decide),
    takeBeforeDot_notMem _ (digit_list_avoid _ ah _ (by tauto)),
    takeBeforeDot_cons_ne '-' (by decide),
    takeBeforeDot_notMem _ (digit_list_avoid _ ami _ (by tauto)),
    takeBeforeDot_cons_ne '-' (by decide),
    takeBeforeDot_notMem _ (digit_list_avoid _ as' _ (by tauto)),
    takeBeforeDot_cons_dot]
  simp [List.append_assoc]

theorem isPrefixOf_append_self (l r : List Char) : l.isPrefixOf (l ++ r) = true := by
  induction l with
  | nil => simp [List.isPrefixOf]
  | cons c cs ih => simp [List.isPrefixOf, ih]

theorem isSuffixOf_append_self (l r : List Char) : r.isSuffixOf (l ++ r) = true := by
  unfold List.isSuffixOf
  rw [List.reverse_append]
  exact isPrefixOf_append_self r.reverse l.reverse

theorem jsEndsWith_of_data (s sfx : String) (a : List Char) (h : s.data = a ++ sfx.data) :
    jsEndsWith s sfx = true := by
  unfold jsEndsWith
  rw [h]
  exact isSuffixOf_append_self a sfx.data

theorem matchesBackupPattern_of_shape (s : String)
    (y1 y2 y3 y4 m1 m2 d1 d2 h1 h2 n1 n2 s1 s2 : Char)
    (hy1 : y1.isDigit = true) (hy2 : y2.isDigit = true) (hy3 : y3.isDigit = true)
    (hy4 : y4.isDigit = true) (hm1 : m1.isDigit = true) (hm2 : m2.isDigit = true)
    (hd1 : d1.isDigit = true) (hd2 : d2.isDigit = true) (hh1 : h1.isDigit = true)
    (hh2 : h2.isDigit = true) (hn1 : n1.isDigit = true) (hn2 : n2.isDigit = true)
    (hs1 : s1.isDigit = true) (hs2 : s2.isDigit = true)
    (hdata : s.data = 'b' :: 'a' :: 'c' :: 'k' :: 'u' :: 'p' :: '-' ::
      y1 :: y2 :: y3 :: y4 :: '-' :: m1 :: m2 :: '-' :: d1 :: d2 :: '-' ::
      h1 :: h2 :: '-' :: n1 :: n2 :: '-' :: s1 :: s2 :: ".backup.json".data) :
    matchesBackupPattern s = true := by
  unfold matchesBackupPattern
  rw [hdata]
  simp [dropLit, digitsRun, charTok,
    hy1, hy2, hy3, hy4, hm1, hm2, hd1, hd2, hh1, hh2, hn1, hn2, hs1, hs2]

/-- C5 (amended): every filename the Manager generates matches the
documented pattern `backup-YYYY-MM-DD-HH-mm-ss.backup.json`, with the six
fields being the **UTC** components of the creation time (`toISOString`),
not the local-time components the spec asserts; and the Reporter's directory
scan accepts exactly the filenames ending in the literal suffix
`.backup.json` — a strict superset of the pattern. -/
theorem c5_pattern_and_filter :
    (∀ t : JsDateTime, ValidDateTime t →
      (generateBackupFileName t).data =
        'b' :: 'a' :: 'c' :: 'k' :: 'u' :: 'p' :: '-' ::
          (pad4 t.year ++ '-' :: (pad2 t.month ++ '-' :: (pad2 t.day ++
            '-' :: (pad2 t.hour ++ '-' :: (pad2 t.minute ++ '-' :: (pad2 t.second ++
              ".backup.json".data)))))) ∧
      matchesBackupPattern (generateBackupFileName t) = true ∧
      jsEndsWith (generateBackupFileName t) ".backup.json" = true) ∧
    (∀ files : List (String × FileContent),
      getBackupFiles "backups" (some files) =
        (files.filter fun f => jsEndsWith f.1 ".backup.json").map
          fun f => (jsPathJoin "backups" f.1, f.2)) := by
  refine ⟨fun t ht => ?_, fun files => rfl⟩
  obtain ⟨hy, hmo1, hmo2, hd1, hd2, hh, hmi, hs, hms⟩ := ht
  have hdat := generateBackupFileName_data t
    ⟨hy, hmo1, hmo2, hd1, hd2, hh, hmi, hs, hms⟩
  refine ⟨hdat, ?_, ?_⟩
  · have dd : ∀ m : Nat, m < 10 → (digitChar m).isDigit = true :=
      fun m hm => digitP_isDigit _ (digitChar_digitP _ hm)
    have hdat2 := hdat
    rw [pad4_eq _ hy, pad2_eq _ (by omega : t.month ≤ 99),
      pad2_eq _ (by omega : t.day ≤ 99), pad2_eq _ (by omega : t.hour ≤ 99),
      pad2_eq _ (by omega : t.minute ≤ 99), pad2_eq _ (by omega : t.second ≤ 99)] at hdat2
    simp only [List.cons_append, List.nil_append] at hdat2
    exact matchesBackupPattern_of_shape _ _ _ _ _ _ _ _ _ _ _ _ _ _ _
      (dd _ (by omega)) (dd _ (by omega)) (dd _ (by omega)) (dd _ (by omega))
      (dd _ (by omega)) (dd _ (by omega)) (dd _ (by omega)) (dd _ (by omega))
      (dd _ (by omega)) (dd _ (by omega)) (dd _ (by omega)) (dd _ (by omega))
      (dd _ (by omega)) (dd _ (by omega)) hdat2
  · exact jsEndsWith_of_data _ _
      ('b' :: 'a' :: 'c' :: 'k' :: 'u' :: 'p' :: '-' ::
        (pad4 t.year ++ '-' :: (pad2 t.month ++ '-' :: (pad2 t.day ++
          '-' :: (pad2 t.hour ++ '-' :: (pad2 t.minute ++ '-' :: pad2 t.second))))))
      (by rw [hdat]; simp [List.append_assoc])

/-- Witness for C5 at the concrete creation time 2025-01-02T03:04:05.678Z. -/
theorem c5_pattern_and_filter_witness :
    matchesBackupPattern (generateBackupFileName ⟨2025, 1, 2, 3, 4, 5, 678⟩) = true :=
  (c5_pattern_and_filter.1 ⟨2025, 1, 2, 3, 4, 5, 678⟩ (by decide)).2.1

/-- Counterexample to C5 as stated: the scan accepts `x.backup.json`, which
does not match the pattern (acceptance is only the suffix check), and the
generated timestamp fields are UTC, not local time — in a host zone 60
minutes east of UTC the local-time rendering the spec prescribes names the
03:04:05 UTC snapshot with hour 04, while the code names it with hour 03. -/
theorem c5_counterexample_filter_and_localtime :
    jsEndsWith "x.backup.json" ".backup.json" = true ∧
    matchesBackupPattern "x.backup.json" = false ∧
    getBackupFiles "backups" (some [("x.backup.json", .nonArrayJSON)]) =
      [("backups/x.backup.json", .nonArrayJSON)] ∧
    generateBackupFileName ⟨2025, 1, 2, 3, 4, 5, 678⟩ ≠
      specLocalBackupFileName 60 ⟨2025, 1, 2, 3, 4, 5, 678⟩ ∧
    specLocalBackupFileName 60 ⟨2025, 1, 2, 3, 4, 5, 678⟩ =
      "backup-2025-01-02-04-04-05.backup.json" := by
  decide

/-! ## Claim C4: the key order and the per-id counts -/

theorem strLtb_cons (x y : Char) (xs ys : List Char) :
    strLtb (x :: xs) (y :: ys) =
      if x.toNat < y.toNat then true
      else if y.toNat < x.toNat then false
      else strLtb xs ys := rfl

theorem strLtb_irrefl : ∀ a : List Char, strLtb a a = false := by
  intro a
  induction a with
  | nil => rfl
  | cons x xs ih => simp [strLtb_cons, ih]

theorem strLtb_trans :
    ∀ (a b c : List Char), strLtb a b = true → strLtb b c = true → strLtb a c = true := by
  intro a
  induction a with
  | nil =>
    intro b c hab hbc
    cases b with
    | nil => simp [strLtb] at hab
    | cons y ys =>
      cases c with
      | nil => simp [strLtb] at hbc
      | cons z zs => simp [strLtb]
  | cons x xs ih =>
    intro b c hab hbc
    cases b with
    | nil => simp [strLtb] at hab
    | cons y ys =>
      cases c with
      | nil => simp [strLtb] at hbc
      | cons z zs =>
        rw [strLtb_cons] at hab hbc ⊢
        split_ifs at hab hbc ⊢ <;>
          first
          | rfl
          | omega
          | exact Bool.noConfusion hab
          | exact Bool.noConfusion hbc
          | exact ih ys zs hab hbc

theorem charEqOfToNat (x y : Char) (h : x.toNat = y.toNat) : x = y :=
  Char.ext_iff.mpr (UInt32.ext h)

theorem strLtb_connex :
    ∀ (a b : List Char), strLtb a b = false → a = b ∨ strLtb b a = true := by
  intro a
  induction a with
  | nil =>
    intro b hab
    cases b with
    | nil => exact Or.inl rfl
    | cons y ys => simp [strLtb] at hab
  | cons x xs ih =>
    intro b hab
    cases b with
    | nil => exact Or.inr (by simp [strLtb])
    | cons y ys =>
      rw [strLtb_cons] at hab
      by_cases h1 : x.toNat < y.toNat
      · simp [h1] at hab
      · by_cases h2 : y.toNat < x.toNat
        · exact Or.inr (by rw [strLtb_cons]; simp [h2])
        · have hxy : x = y := charEqOfToNat x y (by omega)
          simp [h1, h2] at hab
          rcases ih ys hab with rfl | hlt
          · exact Or.inl (by rw [hxy])
          · exact Or.inr (by rw [strLtb_cons]; simp [h1, h2, hlt])

theorem strLeb_total (a b : String) : strLeb a b = true ∨ strLeb b a = true := by
  unfold strLeb
  by_cases h : strLtb b.data a.data = true
  · right
    by_cases h2 : strLtb a.data b.data = true
    · have habs := strLtb_trans _ _ _ h h2
      rw [strLtb_irrefl] at habs
      cases habs
    · simp at h2
      simp [h2]
  · left
    simp at h
    simp [h]

theorem strLeb_trans (a b c : String) (hab : strLeb a b = true) (hbc : strLeb b c = true) :
    strLeb a c = true := by
  unfold strLeb at hab hbc ⊢
  simp only [Bool.not_eq_true'] at hab hbc ⊢
  by_contra hca
  simp only [Bool.not_eq_false] at hca
  rcases strLtb_connex _ _ hab with hba | halt
  · rcases strLtb_connex _ _ hbc with hcb | hblt
    · rw [hcb, hba, strLtb_irrefl] at hca
      cases hca
    · rw [hba] at hblt
      have := strLtb_trans _ _ _ hca hblt
      rw [strLtb_irrefl] at this
      cases this
  · rcases strLtb_connex _ _ hbc with hcb | hblt
    · rw [← hcb] at halt
      have := strLtb_trans _ _ _ hca halt
      rw [strLtb_irrefl] at this
      cases this
    · have h1 := strLtb_trans _ _ _ hca halt
      have h2 := strLtb_trans _ _ _ h1 hblt
      rw [strLtb_irrefl] at h2
      cases h2

theorem groupedSorted (cs : List (String × Nat)) :
    List.Sorted (fun a b : String × Nat => strLeb a.1 b.1 = true)
      (List.insertionSort (fun a b : String × Nat => strLeb a.1 b.1 = true) cs) := by
  haveI : IsTotal (String × Nat) (fun a b => strLeb a.1 b.1 = true) :=
    ⟨fun a b => strLeb_total a.1 b.1⟩
  haveI : IsTrans (String × Nat) (fun a b => strLeb a.1 b.1 = true) :=
    ⟨fun a b c => strLeb_trans a.1 b.1 c.1⟩
  exact List.sorted_insertionSort _ cs

theorem lookup_upsertCount (key k : String) (cs : List (String × Nat)) :
    (upsertCount key cs).lookup k =
      if k = key then some (((cs.lookup k).getD 0) + 1) else cs.lookup k := by
  induction cs with
  | nil =>
    by_cases h : k = key
    · subst h; simp [upsertCount, List.lookup]
    · have hb : (k == key) = false := beq_eq_false_iff_ne.mpr h
      simp [upsertCount, List.lookup, h, hb]
  | cons p rest ih =>
    rcases p with ⟨k0, v⟩
    by_cases h0 : k0 = key
    · subst h0
      by_cases hk : k = k0
      · subst hk; simp [upsertCount, List.lookup]
      · have hb : (k == k0) = false := beq_eq_false_iff_ne.mpr hk
        simp [upsertCount, List.lookup, hk, hb]
    · by_cases hk : k = k0
      · subst hk
        have hb : (k == k) = true := beq_self_eq_true k
        simp [upsertCount, List.lookup, Ne.symm h0, h0, hb]
      · have hb : (k == k0) = false := beq_eq_false_iff_ne.mpr hk
        simp [upsertCount, List.lookup, hk, h0, ih, hb]

theorem lookup_countStudents (students : List SnapElem) :
    ∀ (cs : List (String × Nat)) (k : String),
      ((countStudents cs students).lookup k).getD 0 =
        ((cs.lookup k).getD 0) +
          (students.filter fun st => elemIdKey st = some k).length := by
  induction students with
  | nil => intro cs k; simp [countStudents]
  | cons st rest ih =>
    intro cs k
    unfold countStudents
    simp only [List.foldl_cons]
    rcases hst : elemIdKey st with _ | key
    · rw [show List.foldl _ cs rest = countStudents cs rest from rfl, ih]
      simp [List.filter_cons, hst]
    · rw [show List.foldl _ (upsertCount key cs) rest =
          countStudents (upsertCount key cs) rest from rfl, ih]
      rw [lookup_upsertCount]
      by_cases hk : k = key
      · subst hk
        simp [List.filter_cons, hst]
        omega
      · simp [List.filter_cons, hst, hk, show ¬ (some key = some k) by simp [Ne.symm hk]]

theorem reportStep_counts (tzMin : Int) (acc : RepAcc) (f : String × FileContent) (k : String) :
    (((reportStep tzMin acc f).counts).lookup k).getD 0 =
      ((acc.counts.lookup k).getD 0) + fileIdCount k f.2 := by
  rcases f with ⟨name, content⟩
  cases content with
  | readError => simp [reportStep, fileIdCount]
  | nonArrayJSON => simp [reportStep, fileIdCount]
  | records students =>
    unfold reportStep
    dsimp only
    split
    · rw [show (⟨some (String.mk (lastPathComponent name.data)),
          some (parseTimestampFromFilename name), acc.counts, acc.totalStudents,
          acc.totalFilesWithStudents⟩ : RepAcc).counts = acc.counts from rfl]
      rw [lookup_countStudents]
      rfl
    · rw [lookup_countStudents]
      rfl

theorem foldl_reportStep_counts (tzMin : Int) :
    ∀ (files : List (String × FileContent)) (a : RepAcc) (k : String),
      (((files.foldl (reportStep tzMin) a).counts).lookup k).getD 0 =
        ((a.counts.lookup k).getD 0) + listingIdCount k files := by
  intro files
  induction files with
  | nil => intro a k; simp [listingIdCount]
  | cons f rest ih =>
    intro a k
    simp only [List.foldl_cons]
    rw [ih, reportStep_counts]
    simp only [listingIdCount, List.map_cons, List.sum_cons]
    omega

theorem stringDataEq : ∀ (a b : String), a.data = b.data → a = b
  | ⟨_⟩, ⟨_⟩, h => congrArg String.mk h

theorem upsert_pos (key : String) :
    ∀ cs : List (String × Nat), (∀ p ∈ cs, 1 ≤ p.2) →
      ∀ p ∈ upsertCount key cs, 1 ≤ p.2 := by
  intro cs
  induction cs with
  | nil =>
    intro _ p hp
    simp only [upsertCount, List.mem_singleton] at hp
    subst hp
    exact Nat.le_refl 1
  | cons q rest ih =>
    rcases q with ⟨k, v⟩
    intro h p hp
    by_cases hk : k = key
    · simp only [upsertCount, if_pos hk] at hp
      rcases List.mem_cons.mp hp with heq | hmem
      · subst heq; exact Nat.succ_le_succ (Nat.zero_le v)
      · exact h p (List.mem_cons_of_mem _ hmem)
    · simp only [upsertCount, if_neg hk] at hp
      rcases List.mem_cons.mp hp with heq | hmem
      · subst heq; exact h _ (List.mem_cons_self _ _)
      · exact ih (fun q hq => h q (List.mem_cons_of_mem _ hq)) p hmem

theorem upsert_keys (key : String) :
    ∀ cs : List (String × Nat),
      (upsertCount key cs).map Prod.fst =
        if key ∈ cs.map Prod.fst then cs.map Prod.fst
        else cs.map Prod.fst ++ [key] := by
  intro cs
  induction cs with
  | nil => simp [upsertCount]
  | cons q rest ih =>
    rcases q with ⟨k, v⟩
    by_cases hk : k = key
    · subst hk
      simp [upsertCount]
    · simp only [upsertCount, if_neg hk, List.map_cons, ih]
      by_cases hmem : key ∈ rest.map Prod.fst
      · simp [hmem, Ne.symm hk]
      · simp [hmem, Ne.symm hk]

theorem upsert_nodup (key : String) (cs : List (String × Nat))
    (h : (cs.map Prod.fst).Nodup) : ((upsertCount key cs).map Prod.fst).Nodup := by
  rw [upsert_keys]
  by_cases hmem : key ∈ cs.map Prod.fst
  · rw [if_pos hmem]; exact h
  · rw [if_neg hmem]
    rw [List.nodup_append]
    refine ⟨h, List.nodup_singleton key, ?_⟩
    intro a ha hb
    rw [List.mem_singleton] at hb
    subst hb
    exact hmem ha

theorem countStudents_pos (students : List SnapElem) :
    ∀ cs : List (String × Nat), (∀ p ∈ cs, 1 ≤ p.2) →
      ∀ p ∈ countStudents cs students, 1 ≤ p.2 := by
  induction students with
  | nil => intro cs h; exact h
  | cons st rest ih =>
    intro cs h
    have hstep : countStudents cs (st :: rest) =
        countStudents (match elemIdKey st with
          | some key => upsertCount key cs
          | none => cs) rest := rfl
    rw [hstep]
    rcases hst : elemIdKey st with _ | key
    · exact ih cs h
    · exact ih _ (upsert_pos key cs h)

theorem countStudents_nodup (students : List SnapElem) :
    ∀ cs : List (String × Nat), ((cs.map Prod.fst).Nodup) →
      ((countStudents cs students).map Prod.fst).Nodup := by
  induction students with
  | nil => intro cs h; exact h
  | cons st rest ih =>
    intro cs h
    have hstep : countStudents cs (st :: rest) =
        countStudents (match elemIdKey st with
          | some key => upsertCount key cs
          | none => cs) rest := rfl
    rw [hstep]
    rcases hst : elemIdKey st with _ | key
    · exact ih cs h
    · exact ih _ (upsert_nodup key cs h)

theorem reportStep_pos (tzMin : Int) (acc : RepAcc) (f : String × FileContent)
    (h : ∀ p ∈ acc.counts, 1 ≤ p.2) :
    ∀ p ∈ (reportStep tzMin acc f).counts, 1 ≤ p.2 := by
  rcases f with ⟨name, content⟩
  cases content with
  | readError => exact h
  | nonArrayJSON => exact h
  | records students =>
    unfold reportStep
    dsimp only
    split
    · exact countStudents_pos students acc.counts h
    · exact countStudents_pos students acc.counts h

theorem reportStep_nodup (tzMin : Int) (acc : RepAcc) (f : String × FileContent)
    (h : (acc.counts.map Prod.fst).Nodup) :
    (((reportStep tzMin acc f).counts).map Prod.fst).Nodup := by
  rcases f with ⟨name, content⟩
  cases content with
  | readError => exact h
  | nonArrayJSON => exact h
  | records students =>
    unfold reportStep
    dsimp only
    split
    · exact countStudents_nodup students acc.counts h
    · exact countStudents_nodup students acc.counts h

theorem foldl_reportStep_pos (tzMin : Int) :
    ∀ (files : List (String × FileContent)) (a : RepAcc),
      (∀ p ∈ a.counts, 1 ≤ p.2) →
      ∀ p ∈ (files.foldl (reportStep tzMin) a).counts, 1 ≤ p.2 := by
  intro files
  induction files with
  | nil => intro a h; exact h
  | cons f rest ih =>
    intro a h
    simp only [List.foldl_cons]
    exact ih _ (reportStep_pos tzMin a f h)

theorem foldl_reportStep_nodup (tzMin : Int) :
    ∀ (files : List (String × FileContent)) (a : RepAcc),
      ((a.counts.map Prod.fst).Nodup) →
      (((files.foldl (reportStep tzMin) a).counts).map Prod.fst).Nodup := by
  intro files
  induction files with
  | nil => intro a h; exact h
  | cons f rest ih =>
    intro a h
    simp only [List.foldl_cons]
    exact ih _ (reportStep_nodup tzMin a f h)

theorem mem_iff_lookup (k : String) (v : Nat) :
    ∀ cs : List (String × Nat), (cs.map Prod.fst).Nodup →
      ((k, v) ∈ cs ↔ cs.lookup k = some v) := by
  intro cs
  induction cs with
  | nil => intro _; simp [List.lookup]
  | cons p rest ih =>
    rcases p with ⟨k0, v0⟩
    intro hnd
    simp only [List.map_cons, List.nodup_cons] at hnd
    obtain ⟨hk0, hrest⟩ := hnd
    by_cases hk : k = k0
    · subst hk
      have hlk : List.lookup k ((k, v0) :: rest) = some v0 := by
        simp [List.lookup]
      rw [hlk]
      constructor
      · intro hmem
        rcases List.mem_cons.mp hmem with heq | hmemr
        · rw [Prod.mk.injEq] at heq
          rw [heq.2]
        · exact absurd (List.mem_map_of_mem Prod.fst hmemr) hk0
      · intro hv
        have hv' : v0 = v := by
          injection hv
        subst hv'
        exact List.mem_cons_self _ _
    · have hb : (k == k0) = false := beq_eq_false_iff_ne.mpr hk
      have hlk : List.lookup k ((k0, v0) :: rest) = List.lookup k rest := by
        simp [List.lookup, hb]
      rw [hlk, ← ih hrest]
      constructor
      · intro hmem
        rcases List.mem_cons.mp hmem with heq | hmemr
        · exact absurd (congrArg Prod.fst heq) hk
        · exact hmemr
      · intro hmem
        exact List.mem_cons_of_mem _ hmem

theorem counts_mem_iff (tzMin : Int) (files : List (String × FileContent))
    (k : String) (cnt : Nat) :
    ((k, cnt) ∈ (files.foldl (reportStep tzMin) ({} : RepAcc)).counts ↔
      (cnt = listingIdCount k files ∧ 1 ≤ cnt)) := by
  have hnd : (((files.foldl (reportStep tzMin) ({} : RepAcc)).counts).map Prod.fst).Nodup :=
    foldl_reportStep_nodup tzMin files {} List.nodup_nil
  have hpos := foldl_reportStep_pos tzMin files {}
    (fun p hp => absurd hp (List.not_mem_nil p))
  have hl := foldl_reportStep_counts tzMin files {} k
  have hl0 : ((({} : RepAcc).counts).lookup k).getD 0 = 0 := rfl
  rw [hl0, Nat.zero_add] at hl
  rw [mem_iff_lookup k cnt _ hnd]
  constructor
  · intro hv
    refine ⟨?_, ?_⟩
    · rw [hv] at hl
      simpa using hl
    · exact hpos (k, cnt) ((mem_iff_lookup k cnt _ hnd).mpr hv)
  · rintro ⟨h1, h2⟩
    rcases hcase : ((files.foldl (reportStep tzMin) ({} : RepAcc)).counts).lookup k
      with _ | v
    · rw [hcase] at hl
      simp at hl
      omega
    · rw [hcase] at hl
      simp at hl
      have hv : v = cnt := by omega
      rw [hv]

theorem grouped_pairwise_strict (cs : List (String × Nat))
    (hnd : (cs.map Prod.fst).Nodup) :
    (List.insertionSort (fun a b : String × Nat => strLeb a.1 b.1 = true) cs).Pairwise
      (fun a b => strLtb a.1.data b.1.data = true) := by
  have hsorted : (List.insertionSort
      (fun a b : String × Nat => strLeb a.1 b.1 = true) cs).Pairwise
      (fun a b : String × Nat => strLeb a.1 b.1 = true) := groupedSorted cs
  have hperm := List.perm_insertionSort
    (fun a b : String × Nat => strLeb a.1 b.1 = true) cs
  have hnd2 : ((List.insertionSort
      (fun a b : String × Nat => strLeb a.1 b.1 = true) cs).map Prod.fst).Nodup :=
    ((hperm.map Prod.fst).nodup_iff).mpr hnd
  have hne := (List.pairwise_map).mp hnd2
  refine (hsorted.and hne).imp ?_
  intro a b hab
  obtain ⟨hle, hneq⟩ := hab
  unfold strLeb at hle
  rw [Bool.not_eq_true'] at hle
  rcases strLtb_connex _ _ hle with heq | hlt
  · exact absurd (stringDataEq _ _ heq) (fun hq => hneq hq.symm)
  · exact hlt

theorem generateReport_stats_grouped (tzMin : Int)
    (dirListing : Option (List (String × FileContent)))
    (n : Nat) (lf ld : Option String) (grouped : List (String × Nat)) (avg : Int)
    (h : generateReport tzMin dirListing = .ok (.stats n lf ld grouped avg)) :
    grouped = List.insertionSort (fun a b : String × Nat => strLeb a.1 b.1 = true)
      (((getBackupFiles "backups" dirListing).foldl (reportStep tzMin) {}).counts) := by
  unfold generateReport at h
  simp only [] at h
  split at h
  · simp at h
  · split at h
    · rw [Except.ok.injEq, Report.stats.injEq] at h
      exact h.2.2.2.1.symm
    · split at h
      · exact absurd h (by simp)
      · rw [Except.ok.injEq, Report.stats.injEq] at h
        exact h.2.2.2.1.symm

/-- The claim's concrete pair of snapshot files: record ids `[1, 2, 2, 3]` in
the first file and `[2, 3, 3]` in the second (numeric ids stringify to the
object keys "1", "2", "3"). -/
def c4Listing : List (String × FileContent) :=
  [("backup-2025-01-02-03-04-05.backup.json", .records
      [.record (some (.vnum 1)), .record (some (.vnum 2)),
       .record (some (.vnum 2)), .record (some (.vnum 3))]),
   ("backup-2025-01-02-03-04-06.backup.json", .records
      [.record (some (.vnum 2)), .record (some (.vnum 3)), .record (some (.vnum 3))])]

/-- C4: whenever `generateReport` resolves with the statistics shape, the
returned per-id list is strictly ascending by id (deterministic, no duplicate
ids) and contains the pair `(key, cnt)` exactly when `cnt ≥ 1` is the number
of records — not files — across all surviving files whose id stringifies to
`key` (an id repeated inside one snapshot is double-counted); and on the
claim's concrete instance — files with ids `[1, 2, 2, 3]` and `[2, 3, 3]` —
the grouping is `1 → 1, 2 → 3, 3 → 3` with average population `3.50`
(`350` hundredths, `(4 + 3) / 2`). -/
theorem c4_per_id_counts_and_order :
    (∀ (tzMin : Int) (dirListing : Option (List (String × FileContent)))
        (n : Nat) (lf ld : Option String) (grouped : List (String × Nat)) (avg : Int),
      generateReport tzMin dirListing = .ok (.stats n lf ld grouped avg) →
        (grouped.Pairwise fun a b => strLtb a.1.data b.1.data = true) ∧
        (∀ key cnt, ((key, cnt) ∈ grouped ↔
          (cnt = listingIdCount key (getBackupFiles "backups" dirListing) ∧ 1 ≤ cnt)))) ∧
    generateReport 0 (some c4Listing) =
      .ok (.stats 2 (some "backup-2025-01-02-03-04-06.backup.json")
        (some "2006-03-04T00:00:00.000Z") [("1", 1), ("2", 3), ("3", 3)] 350) := by
  constructor
  · intro tzMin dirListing n lf ld grouped avg h
    have hg := generateReport_stats_grouped tzMin dirListing n lf ld grouped avg h
    have hnd : ((((getBackupFiles "backups" dirListing).foldl (reportStep tzMin)
        ({} : RepAcc)).counts).map Prod.fst).Nodup :=
      foldl_reportStep_nodup tzMin _ {} List.nodup_nil
    constructor
    · rw [hg]
      exact grouped_pairwise_strict _ hnd
    · intro key cnt
      rw [hg]
      have hperm := List.perm_insertionSort
        (fun a b : String × Nat => strLeb a.1 b.1 = true)
        (((getBackupFiles "backups" dirListing).foldl (reportStep tzMin) {}).counts)
      rw [hperm.mem_iff]
      exact counts_mem_iff tzMin _ key cnt
  · decide

/-- C4 witness: the universal part applied to the concrete instance — the
returned grouping `[("1", 1), ("2", 3), ("3", 3)]` is strictly ascending, and
its entry `("2", 3)` reflects exactly the 3 records with id 2 across the two
files. -/
theorem c4_per_id_counts_and_order_witness :
    (([("1", 1), ("2", 3), ("3", 3)] : List (String × Nat)).Pairwise
      fun a b => strLtb a.1.data b.1.data = true) ∧
    (("2", 3) ∈ ([("1", 1), ("2", 3), ("3", 3)] : List (String × Nat)) ↔
      (3 = listingIdCount "2" (getBackupFiles "backups" (some c4Listing)) ∧ 1 ≤ 3)) :=
  ⟨(c4_per_id_counts_and_order.1 0 (some c4Listing) 2
      (some "backup-2025-01-02-03-04-06.backup.json") (some "2006-03-04T00:00:00.000Z")
      [("1", 1), ("2", 3), ("3", 3)] 350 c4_per_id_counts_and_order.2).1,
   (c4_per_id_counts_and_order.1 0 (some c4Listing) 2
      (some "backup-2025-01-02-03-04-06.backup.json") (some "2006-03-04T00:00:00.000Z")
      [("1", 1), ("2", 3), ("3", 3)] 350 c4_per_id_counts_and_order.2).2 "2" 3⟩

theorem uint32_le_iff (a b : UInt32) : a ≤ b ↔ a.toNat ≤ b.toNat := by
  rw [UInt32.le_def, BitVec.le_def]
  exact Iff.rfl

theorem char_isDigit_of (c : Char) (h1 : 48 ≤ c.toNat) (h2 : c.toNat ≤ 57) :
    c.isDigit = true := by
  simp [Char.isDigit]
  exact ⟨(uint32_le_iff _ _).mpr h1, (uint32_le_iff _ _).mpr h2⟩

theorem string_mk_data : ∀ s : String, String.mk s.data = s
  | ⟨_⟩ => rfl

theorem skipWs_space (l : List Char) : skipWs (' ' :: l) = skipWs l := rfl

theorem skipWs_nl (l : List Char) : skipWs ('\n' :: l) = skipWs l := rfl

theorem skipWs_quote (l : List Char) : skipWs ('"' :: l) = '"' :: l := rfl

theorem skipWs_colon (l : List Char) : skipWs (':' :: l) = ':' :: l := rfl

theorem skipWs_comma (l : List Char) : skipWs (',' :: l) = ',' :: l := rfl

theorem skipWs_rbrace (l : List Char) : skipWs ('}' :: l) = '}' :: l := rfl

theorem skipWs_rbrack (l : List Char) : skipWs (']' :: l) = ']' :: l := rfl

theorem skipWs_cons_of (c : Char) (l : List Char)
    (h : ¬(c = ' ' ∨ c = Char.ofNat 9 ∨ c = Char.ofNat 10 ∨ c = Char.ofNat 13)) :
    skipWs (c :: l) = c :: l := by
  simp only [skipWs, List.dropWhile_cons]
  rw [if_neg]
  simp [h]

theorem skipWs_cons_digit (c : Char) (l : List Char)
    (h1 : 48 ≤ c.toNat) (h2 : c.toNat ≤ 57) : skipWs (c :: l) = c :: l := by
  apply skipWs_cons_of
  rintro (rfl | rfl | rfl | rfl) <;> exact absurd h1 (by decide)

theorem parseStringBody_succ (fuel : Nat) (c : Char) (r : List Char) :
    parseStringBody (fuel + 1) (c :: r) =
      (if c = '"' then .ok ([], r)
       else if c = '\\' then
         match r with
         | '"' :: r2 => (parseStringBody fuel r2).map fun p => ('"' :: p.1, p.2)
         | '\\' :: r2 => (parseStringBody fuel r2).map fun p => ('\\' :: p.1, p.2)
         | '/' :: r2 => (parseStringBody fuel r2).map fun p => ('/' :: p.1, p.2)
         | 'b' :: r2 => (parseStringBody fuel r2).map fun p => (Char.ofNat 8 :: p.1, p.2)
         | 't' :: r2 => (parseStringBody fuel r2).map fun p => (Char.ofNat 9 :: p.1, p.2)
         | 'n' :: r2 => (parseStringBody fuel r2).map fun p => (Char.ofNat 10 :: p.1, p.2)
         | 'f' :: r2 => (parseStringBody fuel r2).map fun p => (Char.ofNat 12 :: p.1, p.2)
         | 'r' :: r2 => (parseStringBody fuel r2).map fun p => (Char.ofNat 13 :: p.1, p.2)
         | 'u' :: '0' :: '0' :: h1 :: h2 :: r2 =>
           match hexDigitVal h1, hexDigitVal h2 with
           | some a, some b =>
             (parseStringBody fuel r2).map fun p => (Char.ofNat (a * 16 + b) :: p.1, p.2)
           | _, _ => .error "Bad escaped character in JSON"
         | _ => .error "Bad escaped character in JSON"
       else if c.toNat < 32 then .error "Bad control character in JSON string"
       else (parseStringBody fuel r).map fun p => (c :: p.1, p.2)) := rfl

theorem hexDigitVal_hexDigit (n : Nat) (h : n < 16) : hexDigitVal (hexDigit n) = some n := by
  interval_cases n <;> decide

theorem parseStringBody_bs_quote (fuel : Nat) (r : List Char) :
    parseStringBody (fuel + 1) ('\\' :: '"' :: r) =
      (parseStringBody fuel r).map fun p => ('"' :: p.1, p.2) := rfl

theorem parseStringBody_bs_bs (fuel : Nat) (r : List Char) :
    parseStringBody (fuel + 1) ('\\' :: '\\' :: r) =
      (parseStringBody fuel r).map fun p => ('\\' :: p.1, p.2) := rfl

theorem parseStringBody_bs_b (fuel : Nat) (r : List Char) :
    parseStringBody (fuel + 1) ('\\' :: 'b' :: r) =
      (parseStringBody fuel r).map fun p => (Char.ofNat 8 :: p.1, p.2) := rfl

theorem parseStringBody_bs_t (fuel : Nat) (r : List Char) :
    parseStringBody (fuel + 1) ('\\' :: 't' :: r) =
      (parseStringBody fuel r).map fun p => (Char.ofNat 9 :: p.1, p.2) := rfl

theorem parseStringBody_bs_n (fuel : Nat) (r : List Char) :
    parseStringBody (fuel + 1) ('\\' :: 'n' :: r) =
      (parseStringBody fuel r).map fun p => (Char.ofNat 10 :: p.1, p.2) := rfl

theorem parseStringBody_bs_f (fuel : Nat) (r : List Char) :
    parseStringBody (fuel + 1) ('\\' :: 'f' :: r) =
      (parseStringBody fuel r).map fun p => (Char.ofNat 12 :: p.1, p.2) := rfl

theorem parseStringBody_bs_r (fuel : Nat) (r : List Char) :
    parseStringBody (fuel + 1) ('\\' :: 'r' :: r) =
      (parseStringBody fuel r).map fun p => (Char.ofNat 13 :: p.1, p.2) := rfl

theorem parseStringBody_bs_u (fuel : Nat) (h1 h2 : Char) (r : List Char) :
    parseStringBody (fuel + 1) ('\\' :: 'u' :: '0' :: '0' :: h1 :: h2 :: r) =
      (match hexDigitVal h1, hexDigitVal h2 with
       | some a, some b =>
         (parseStringBody fuel r).map fun p => (Char.ofNat (a * 16 + b) :: p.1, p.2)
       | _, _ => .error "Bad escaped character in JSON") := rfl

theorem parseStringBody_plain (fuel : Nat) (c : Char) (r : List Char)
    (hq : ¬ c = '"') (hb : ¬ c = '\\') (hc : ¬ c.toNat < 32) :
    parseStringBody (fuel + 1) (c :: r) =
      (parseStringBody fuel r).map fun p => (c :: p.1, p.2) := by
  rw [parseStringBody_succ, if_neg hq, if_neg hb, if_neg hc]

theorem parseStringBody_rt : ∀ (s : List Char) (fuel : Nat) (rest : List Char),
    (s.map escapeJSONChar).flatten.length + 1 ≤ fuel →
    parseStringBody fuel ((s.map escapeJSONChar).flatten ++ '"' :: rest) = .ok (s, rest) := by
  intro s
  induction s with
  | nil =>
    intro fuel rest hf
    obtain ⟨f, rfl⟩ : ∃ f, fuel = f + 1 := ⟨fuel - 1, by omega⟩
    simp only [List.map_nil, List.flatten_nil, List.nil_append]
    rfl
  | cons c cs ih =>
    intro fuel rest hf
    obtain ⟨f, rfl⟩ : ∃ f, fuel = f + 1 := ⟨fuel - 1, by omega⟩
    simp only [List.map_cons, List.flatten_cons, List.length_append, List.append_assoc] at hf ⊢
    have hcs : (cs.map escapeJSONChar).flatten.length + 1 ≤ f := by
      have hlen : 1 ≤ (escapeJSONChar c).length := by
        unfold escapeJSONChar
        split_ifs <;> simp
      omega
    by_cases h1 : c = '"'
    · subst h1
      rw [show escapeJSONChar '"' = ['\\', '"'] from rfl, List.cons_append, List.cons_append,
        List.nil_append, parseStringBody_bs_quote, ih f rest hcs]
      rfl
    · by_cases h2 : c = '\\'
      · subst h2
        rw [show escapeJSONChar '\\' = ['\\', '\\'] from rfl, List.cons_append, List.cons_append,
          List.nil_append, parseStringBody_bs_bs, ih f rest hcs]
        rfl
      · by_cases h3 : c = Char.ofNat 8
        · subst h3
          rw [show escapeJSONChar (Char.ofNat 8) = ['\\', 'b'] from rfl, List.cons_append,
            List.cons_append, List.nil_append, parseStringBody_bs_b, ih f rest hcs]
          rfl
        · by_cases h4 : c = Char.ofNat 9
          · subst h4
            rw [show escapeJSONChar (Char.ofNat 9) = ['\\', 't'] from rfl, List.cons_append,
              List.cons_append, List.nil_append, parseStringBody_bs_t, ih f rest hcs]
            rfl
          · by_cases h5 : c = Char.ofNat 10
            · subst h5
              rw [show escapeJSONChar (Char.ofNat 10) = ['\\', 'n'] from rfl, List.cons_append,
                List.cons_append, List.nil_append, parseStringBody_bs_n, ih f rest hcs]
              rfl
            · by_cases h6 : c = Char.ofNat 12
              · subst h6
                rw [show escapeJSONChar (Char.ofNat 12) = ['\\', 'f'] from rfl, List.cons_append,
                  List.cons_append, List.nil_append, parseStringBody_bs_f, ih f rest hcs]
                rfl
              · by_cases h7 : c = Char.ofNat 13
                · subst h7
                  rw [show escapeJSONChar (Char.ofNat 13) = ['\\', 'r'] from rfl, List.cons_append,
                    List.cons_append, List.nil_append, parseStringBody_bs_r, ih f rest hcs]
                  rfl
                · by_cases h8 : c.toNat < 32
                  · have hesc : escapeJSONChar c =
                        ['\\', 'u', '0', '0', hexDigit (c.toNat / 16), hexDigit (c.toNat % 16)] := by
                      simp only [escapeJSONChar, if_neg h1, if_neg h2, if_neg h3, if_neg h4,
                        if_neg h5, if_neg h6, if_neg h7, if_pos h8]
                    rw [hesc]
                    simp only [List.cons_append, List.nil_append]
                    rw [parseStringBody_bs_u,
                      hexDigitVal_hexDigit (c.toNat / 16) (by omega),
                      hexDigitVal_hexDigit (c.toNat % 16) (by omega)]
                    dsimp only
                    rw [ih f rest hcs]
                    simp only [Except.map]
                    have hdm : c.toNat / 16 * 16 + c.toNat % 16 = c.toNat := by omega
                    rw [hdm, Char.ofNat_toNat]
                  · have hesc : escapeJSONChar c = [c] := by
                      simp only [escapeJSONChar, if_neg h1, if_neg h2, if_neg h3, if_neg h4,
                        if_neg h5, if_neg h6, if_neg h7, if_neg h8]
                    rw [hesc, List.cons_append, List.nil_append,
                      parseStringBody_plain f c _ h1 h2 h8, ih f rest hcs]
                    rfl

theorem digitChar_toNat (d : Nat) (h : d < 10) : (digitChar d).toNat = 48 + d := by
  interval_cases d <;> decide

theorem digitRunVal_append_one (l : List Char) (c : Char) :
    digitRunVal (l ++ [c]) = digitRunVal l * 10 + (c.toNat - 48) := by
  simp [digitRunVal, List.foldl_append]

theorem natDigits_spec : ∀ n : Nat,
    (∀ c ∈ natDigits n, 48 ≤ c.toNat ∧ c.toNat ≤ 57) ∧ natDigits n ≠ [] ∧
    (∀ x t, natDigits n ≠ '0' :: x :: t) ∧ digitRunVal (natDigits n) = n := by
  intro n
  induction n using Nat.strong_induction_on with
  | _ n ih =>
    by_cases h10 : n < 10
    · rw [natDigits_eq, if_pos h10]
      interval_cases n <;>
        exact ⟨by decide, by decide, by intro x t; simp, by decide⟩
    · rw [natDigits_eq, if_neg h10]
      obtain ⟨hdig, hne, hzero, hval⟩ := ih (n / 10) (by omega)
      obtain ⟨c0, t0, hc⟩ := List.exists_cons_of_ne_nil hne
      refine ⟨?_, ?_, ?_, ?_⟩
      · intro c hcm
        rcases List.mem_append.mp hcm with hl | hr
        · exact hdig c hl
        · rw [List.mem_singleton] at hr
          subst hr
          rw [digitChar_toNat (n % 10) (by omega)]
          omega
      · intro habs
        rw [List.append_eq_nil] at habs
        exact hne habs.1
      · intro x t heq
        rw [hc, List.cons_append, List.cons.injEq] at heq
        obtain ⟨hc0, htail⟩ := heq
        cases t0 with
        | nil =>
          rw [hc, hc0] at hval
          simp [digitRunVal] at hval
          omega
        | cons x' t' =>
          exact hzero x' t' (by rw [hc, hc0])
      · rw [digitRunVal_append_one, hval, digitChar_toNat (n % 10) (by omega)]
        omega

/-- Heads of `r` (if any) is not a digit. -/
def headNotDigit : List Char → Prop
  | [] => True
  | c :: _ => c.isDigit = false

theorem digits_split (ds r : List Char)
    (hds : ∀ c ∈ ds, c.isDigit = true) (hr : headNotDigit r) :
    (ds ++ r).takeWhile (·.isDigit) = ds ∧ (ds ++ r).dropWhile (·.isDigit) = r := by
  induction ds with
  | nil =>
    cases r with
    | nil => exact ⟨rfl, rfl⟩
    | cons c t =>
      unfold headNotDigit at hr
      simp [List.takeWhile_cons, List.dropWhile_cons, hr]
  | cons d ds ih =>
    have hd := hds d (List.mem_cons_self _ _)
    have hrec := ih (fun c hcm => hds c (List.mem_cons_of_mem _ hcm))
    simp [List.takeWhile_cons, List.dropWhile_cons, hd, hrec.1, hrec.2]

theorem parseJSONNumber_nat (m : Nat) (rest : List Char) (hr : headNotDigit rest) :
    parseJSONNumber (natDigits m ++ rest) = .ok ((m : Int), rest) := by
  obtain ⟨hdig, hne, hzero, hval⟩ := natDigits_spec m
  obtain ⟨c0, t0, hc⟩ := List.exists_cons_of_ne_nil hne
  have hc0 := hdig c0 (by rw [hc]; exact List.mem_cons_self _ _)
  have hsplit := digits_split (natDigits m) rest
    (fun c hcm => char_isDigit_of c (hdig c hcm).1 (hdig c hcm).2) hr
  simp only [parseJSONNumber]
  rw [hc, List.cons_append]
  split
  · rename_i heq
    rw [List.cons.injEq] at heq
    obtain ⟨hdash, -⟩ := heq
    exfalso
    rw [hdash] at hc0
    revert hc0
    decide
  · rw [← List.cons_append, ← hc]
    rw [hsplit.1, hsplit.2]
    split
    · rename_i heq
      exact absurd heq hne
    · rename_i x t heq
      exact absurd heq (hzero x t)
    · rw [hval]
      rfl

theorem parseJSONNumber_neg (l : List Char) :
    parseJSONNumber ('-' :: l) =
      Except.map (fun (p : Nat × List Char) => (-(p.1 : Int), p.2))
        (match l.takeWhile (fun c => c.isDigit) with
         | [] => (.error "Unexpected token in JSON" : Except String (Nat × List Char))
         | '0' :: _ :: _ => .error "Unexpected number in JSON"
         | ds => .ok (digitRunVal ds, l.dropWhile (fun c => c.isDigit))) := rfl

theorem parseJSONNumber_int (n : Int) (rest : List Char) (hr : headNotDigit rest) :
    parseJSONNumber (jsIntToString n ++ rest) = .ok (n, rest) := by
  unfold jsIntToString
  by_cases hneg : n < 0
  · rw [if_pos hneg, List.cons_append, parseJSONNumber_neg]
    obtain ⟨hdig, hne, hzero, hval⟩ := natDigits_spec n.natAbs
    have hsplit := digits_split (natDigits n.natAbs) rest
      (fun c hcm => char_isDigit_of c (hdig c hcm).1 (hdig c hcm).2) hr
    rw [hsplit.1, hsplit.2]
    split
    · rename_i heq
      exact absurd heq hne
    · rename_i x t heq
      exact absurd heq (hzero x t)
    · rw [hval]
      simp only [Except.map]
      have hm : -((n.natAbs : Nat) : Int) = n := by omega
      rw [hm]
  · rw [if_neg hneg, parseJSONNumber_nat n.toNat rest hr]
    have hm : ((n.toNat : Nat) : Int) = n := by omega
    rw [hm]

theorem parseJValue_succ (fuel : Nat) (l0 : List Char) :
    parseJValue (fuel + 1) l0 =
      (match skipWs l0 with
       | 'n' :: 'u' :: 'l' :: 'l' :: r => .ok (.jnull, r)
       | 't' :: 'r' :: 'u' :: 'e' :: r => .ok (.jbool true, r)
       | 'f' :: 'a' :: 'l' :: 's' :: 'e' :: r => .ok (.jbool false, r)
       | '"' :: r => (parseStringBody (r.length + 1) r).map fun p => (.jstr (String.mk p.1), p.2)
       | '[' :: r =>
         (match skipWs r with
          | ']' :: r2 => .ok (.jarr [], r2)
          | _ => (parseJElems fuel r).map fun p => (.jarr p.1, p.2))
       | '{' :: r =>
         (match skipWs r with
          | '}' :: r2 => .ok (.jobj [], r2)
          | _ => (parseJFields fuel r).map fun p => (.jobj p.1, p.2))
       | l => (parseJSONNumber l).map fun p => (.jnum p.1, p.2)) := rfl

theorem parseJValue_ws (fuel : Nat) (l : List Char) :
    parseJValue (fuel + 1) (' ' :: l) = parseJValue (fuel + 1) l := by
  rw [parseJValue_succ, parseJValue_succ, skipWs_space]

theorem parseJValue_quote (fuel : Nat) (r : List Char) :
    parseJValue (fuel + 1) ('"' :: r) =
      (parseStringBody (r.length + 1) r).map fun p => (.jstr (String.mk p.1), p.2) := rfl

theorem parseJValue_digit (fuel : Nat) (c : Char) (r : List Char)
    (h1 : 48 ≤ c.toNat) (h2 : c.toNat ≤ 57) :
    parseJValue (fuel + 1) (c :: r) =
      (parseJSONNumber (c :: r)).map fun p => (.jnum p.1, p.2) := by
  rw [parseJValue_succ, skipWs_cons_digit c r h1 h2]
  split <;> try rfl
  all_goals
    rename_i heq
    rw [List.cons.injEq] at heq
    obtain ⟨hc, -⟩ := heq
    subst hc
    exfalso
    revert h1 h2
    decide

theorem parseJValue_num (fuel : Nat) (n : Int) (rest : List Char) (hr : headNotDigit rest) :
    parseJValue (fuel + 1) (jsIntToString n ++ rest) = .ok (.jnum n, rest) := by
  by_cases hneg : n < 0
  · have hj : jsIntToString n = '-' :: natDigits n.natAbs := by
      unfold jsIntToString; rw [if_pos hneg]
    rw [hj, List.cons_append]
    rw [show parseJValue (fuel + 1) ('-' :: (natDigits n.natAbs ++ rest)) =
      (parseJSONNumber ('-' :: (natDigits n.natAbs ++ rest))).map
        (fun p => (.jnum p.1, p.2)) from rfl]
    rw [← List.cons_append, ← hj, parseJSONNumber_int n rest hr]
    rfl
  · have hj : jsIntToString n = natDigits n.toNat := by
      unfold jsIntToString; rw [if_neg hneg]
    obtain ⟨hdig, hne, hzero, hval⟩ := natDigits_spec n.toNat
    obtain ⟨c0, t0, hc⟩ := List.exists_cons_of_ne_nil hne
    have hc0 := hdig c0 (by rw [hc]; exact List.mem_cons_self _ _)
    rw [hj, hc, List.cons_append]
    rw [parseJValue_digit fuel c0 (t0 ++ rest) hc0.1 hc0.2]
    rw [← List.cons_append, ← hc, ← hj, parseJSONNumber_int n rest hr]
    rfl

theorem parseJValue_ws_num (fuel : Nat) (n : Int) (rest : List Char) (hr : headNotDigit rest) :
    parseJValue (fuel + 1) (' ' :: (jsIntToString n ++ rest)) = .ok (.jnum n, rest) := by
  rw [parseJValue_ws, parseJValue_num fuel n rest hr]

theorem parseJValue_ws_str (fuel : Nat) (s : String) (rest : List Char) :
    parseJValue (fuel + 1)
      (' ' :: '"' :: ((s.data.map escapeJSONChar).flatten ++ '"' :: rest)) =
      .ok (.jstr s, rest) := by
  rw [parseJValue_ws, parseJValue_quote]
  rw [parseStringBody_rt s.data _ rest (by simp [List.length_append])]
  simp [Except.map, string_mk_data]

theorem skipWs_lbrace (l : List Char) : skipWs ('{' :: l) = '{' :: l := rfl

theorem skipWs_lbrack (l : List Char) : skipWs ('[' :: l) = '[' :: l := rfl

theorem parseJFields_succ (fuel : Nat) (l : List Char) :
    parseJFields (fuel + 1) l =
      (match skipWs l with
       | '"' :: r =>
         (match parseStringBody (r.length + 1) r with
          | .error e => .error e
          | .ok (key, r2) =>
            match skipWs r2 with
            | ':' :: r3 =>
              (match parseJValue fuel r3 with
               | .error e => .error e
               | .ok (v, r4) =>
                 match skipWs r4 with
                 | ',' :: r5 => (parseJFields fuel r5).map fun p => ((String.mk key, v) :: p.1, p.2)
                 | '}' :: r5 => .ok ([(String.mk key, v)], r5)
                 | _ => .error "Expected comma or brace in JSON object")
            | _ => .error "Expected colon in JSON object")
       | _ => .error "Expected string key in JSON object") := rfl

theorem parseKey_id (after : List Char) :
    parseStringBody ((('i' :: 'd' :: '"' :: after : List Char)).length + 1)
      ('i' :: 'd' :: '"' :: after) = .ok (['i', 'd'], after) :=
  parseStringBody_rt ['i', 'd'] _ after (by
    simp [List.length_cons, show escapeJSONChar 'i' = ['i'] from rfl,
      show escapeJSONChar 'd' = ['d'] from rfl])

theorem parseKey_name (after : List Char) :
    parseStringBody ((('n' :: 'a' :: 'm' :: 'e' :: '"' :: after : List Char)).length + 1)
      ('n' :: 'a' :: 'm' :: 'e' :: '"' :: after) = .ok (['n', 'a', 'm', 'e'], after) :=
  parseStringBody_rt ['n', 'a', 'm', 'e'] _ after (by
    simp [List.length_cons, show escapeJSONChar 'n' = ['n'] from rfl,
      show escapeJSONChar 'a' = ['a'] from rfl, show escapeJSONChar 'm' = ['m'] from rfl,
      show escapeJSONChar 'e' = ['e'] from rfl])

theorem parseKey_age (after : List Char) :
    parseStringBody ((('a' :: 'g' :: 'e' :: '"' :: after : List Char)).length + 1)
      ('a' :: 'g' :: 'e' :: '"' :: after) = .ok (['a', 'g', 'e'], after) :=
  parseStringBody_rt ['a', 'g', 'e'] _ after (by
    simp [List.length_cons, show escapeJSONChar 'a' = ['a'] from rfl,
      show escapeJSONChar 'g' = ['g'] from rfl, show escapeJSONChar 'e' = ['e'] from rfl])

theorem parseKey_group (after : List Char) :
    parseStringBody ((('g' :: 'r' :: 'o' :: 'u' :: 'p' :: '"' :: after : List Char)).length + 1)
      ('g' :: 'r' :: 'o' :: 'u' :: 'p' :: '"' :: after) = .ok (['g', 'r', 'o', 'u', 'p'], after) :=
  parseStringBody_rt ['g', 'r', 'o', 'u', 'p'] _ after (by
    simp [List.length_cons, show escapeJSONChar 'g' = ['g'] from rfl,
      show escapeJSONChar 'r' = ['r'] from rfl, show escapeJSONChar 'o' = ['o'] from rfl,
      show escapeJSONChar 'u' = ['u'] from rfl, show escapeJSONChar 'p' = ['p'] from rfl])

theorem parseJValue_ws_num_comma (fuel : Nat) (n : Int) (rest : List Char) :
    parseJValue (fuel + 1) (' ' :: (jsIntToString n ++ (',' :: rest))) =
      .ok (.jnum n, ',' :: rest) :=
  parseJValue_ws_num fuel n (',' :: rest) (show (',').isDigit = false by decide)

theorem parseJValue_ws_num_nl (fuel : Nat) (n : Int) (rest : List Char) :
    parseJValue (fuel + 1) (' ' :: (jsIntToString n ++ ('\n' :: rest))) =
      .ok (.jnum n, '\n' :: rest) :=
  parseJValue_ws_num fuel n ('\n' :: rest) (show ('\n').isDigit = false by decide)

theorem parseJFields_student (f : Nat) (s : Student) (rest : List Char) (hf : 8 ≤ f) :
    parseJFields f
      ('\n' :: ' ' :: ' ' :: ' ' :: ' ' :: '"' :: 'i' :: 'd' :: '"' :: ':' :: ' ' :: '"' ::
       ((s.id.data.map escapeJSONChar).flatten ++ ('"' :: ',' ::
        '\n' :: ' ' :: ' ' :: ' ' :: ' ' :: '"' :: 'n' :: 'a' :: 'm' :: 'e' :: '"' :: ':' :: ' ' :: '"' ::
       ((s.name.data.map escapeJSONChar).flatten ++ ('"' :: ',' ::
        '\n' :: ' ' :: ' ' :: ' ' :: ' ' :: '"' :: 'a' :: 'g' :: 'e' :: '"' :: ':' :: ' ' ::
       (jsIntToString (s.age : Int) ++ (',' ::
        '\n' :: ' ' :: ' ' :: ' ' :: ' ' :: '"' :: 'g' :: 'r' :: 'o' :: 'u' :: 'p' :: '"' :: ':' :: ' ' ::
       (jsIntToString s.group ++ ('\n' :: ' ' :: ' ' :: '}' :: rest))))))))) =
      .ok ([("id", .jstr s.id), ("name", .jstr s.name),
            ("age", .jnum (s.age : Int)), ("group", .jnum s.group)], rest) := by
  obtain ⟨f1, rfl⟩ : ∃ g, f = g + 1 := ⟨f - 1, by omega⟩
  obtain ⟨f2, rfl⟩ : ∃ g, f1 = g + 1 := ⟨f1 - 1, by omega⟩
  obtain ⟨f3, rfl⟩ : ∃ g, f2 = g + 1 := ⟨f2 - 1, by omega⟩
  obtain ⟨f4, rfl⟩ : ∃ g, f3 = g + 1 := ⟨f3 - 1, by omega⟩
  obtain ⟨f5, rfl⟩ : ∃ g, f4 = g + 1 := ⟨f4 - 1, by omega⟩
  simp only [parseJFields_succ, skipWs_nl, skipWs_space, skipWs_quote, skipWs_colon,
    skipWs_comma, skipWs_rbrace, parseKey_id, parseKey_name, parseKey_age, parseKey_group,
    parseJValue_ws_str, parseJValue_ws_num_comma, parseJValue_ws_num_nl, Except.map,
    show String.mk ['i', 'd'] = "id" from rfl, show String.mk ['n', 'a', 'm', 'e'] = "name" from rfl,
    show String.mk ['a', 'g', 'e'] = "age" from rfl,
    show String.mk ['g', 'r', 'o', 'u', 'p'] = "group" from rfl]

theorem studentSer_decomp (s : Student) (tail : List Char) :
    studentSer s ++ tail =
      '{' :: '\n' :: ' ' :: ' ' :: ' ' :: ' ' :: '"' :: 'i' :: 'd' :: '"' :: ':' :: ' ' :: '"' ::
       ((s.id.data.map escapeJSONChar).flatten ++ ('"' :: ',' ::
        '\n' :: ' ' :: ' ' :: ' ' :: ' ' :: '"' :: 'n' :: 'a' :: 'm' :: 'e' :: '"' :: ':' :: ' ' :: '"' ::
       ((s.name.data.map escapeJSONChar).flatten ++ ('"' :: ',' ::
        '\n' :: ' ' :: ' ' :: ' ' :: ' ' :: '"' :: 'a' :: 'g' :: 'e' :: '"' :: ':' :: ' ' ::
       (jsIntToString (s.age : Int) ++ (',' ::
        '\n' :: ' ' :: ' ' :: ' ' :: ' ' :: '"' :: 'g' :: 'r' :: 'o' :: 'u' :: 'p' :: '"' :: ':' :: ' ' ::
       (jsIntToString s.group ++ ('\n' :: ' ' :: ' ' :: '}' :: tail)))))))) := by
  simp only [studentSer, quoteJSONString,
    show ("\x7b\n    \"id\": ").data =
      ['{', '\n', ' ', ' ', ' ', ' ', '"', 'i', 'd', '"', ':', ' '] from rfl,
    show (",\n    \"name\": ").data =
      [',', '\n', ' ', ' ', ' ', ' ', '"', 'n', 'a', 'm', 'e', '"', ':', ' '] from rfl,
    show (",\n    \"age\": ").data =
      [',', '\n', ' ', ' ', ' ', ' ', '"', 'a', 'g', 'e', '"', ':', ' '] from rfl,
    show (",\n    \"group\": ").data =
      [',', '\n', ' ', ' ', ' ', ' ', '"', 'g', 'r', 'o', 'u', 'p', '"', ':', ' '] from rfl,
    show ("\n  \x7d").data = ['\n', ' ', ' ', '}'] from rfl]
  simp [List.append_assoc, List.cons_append]

theorem parseJValue_student (fuel : Nat) (s : Student) (tail : List Char) (h : 8 ≤ fuel) :
    parseJValue (fuel + 1) ('\n' :: ' ' :: ' ' :: (studentSer s ++ tail)) =
      .ok (studentJValue s, tail) := by
  rw [studentSer_decomp]
  simp only [parseJValue_succ, skipWs_nl, skipWs_space, skipWs_lbrace, skipWs_quote]
  rw [parseJFields_student fuel s tail h]
  rfl

theorem parseJElems_succ (fuel : Nat) (l : List Char) :
    parseJElems (fuel + 1) l =
      (match parseJValue fuel l with
       | .error e => .error e
       | .ok (v, r) =>
         match skipWs r with
         | ',' :: r2 => (parseJElems fuel r2).map fun p => (v :: p.1, p.2)
         | ']' :: r2 => .ok ([v], r2)
         | _ => .error "Expected comma or bracket in JSON array") := rfl

theorem parseJElems_students :
    ∀ (students : List Student) (s0 : Student) (f : Nat) (rest : List Char),
      10 * students.length + 10 ≤ f →
      parseJElems f
        ('\n' :: ' ' :: ' ' ::
          (joinSep [',', '\n', ' ', ' '] ((s0 :: students).map studentSer) ++
            ('\n' :: ']' :: rest))) =
        .ok ((s0 :: students).map studentJValue, rest) := by
  intro students
  induction students with
  | nil =>
    intro s0 f rest hf
    obtain ⟨g, rfl⟩ : ∃ g, f = g + 1 := ⟨f - 1, by omega⟩
    obtain ⟨g1, rfl⟩ : ∃ g2, g = g2 + 1 := ⟨g - 1, by omega⟩
    simp only [List.map_cons, List.map_nil, joinSep]
    rw [parseJElems_succ, parseJValue_student g1 s0 ('\n' :: ']' :: rest) (by omega)]
    simp only [skipWs_nl, skipWs_rbrack]
  | cons s1 students ih =>
    intro s0 f rest hf
    simp only [List.length_cons] at hf
    obtain ⟨g, rfl⟩ : ∃ g, f = g + 1 := ⟨f - 1, by omega⟩
    obtain ⟨g1, rfl⟩ : ∃ g2, g = g2 + 1 := ⟨g - 1, by omega⟩
    simp only [List.map_cons, joinSep]
    rw [show ((studentSer s0 ++ [',', '\n', ' ', ' ']) ++
        joinSep [',', '\n', ' ', ' '] (studentSer s1 :: students.map studentSer)) ++
          ('\n' :: ']' :: rest) =
      studentSer s0 ++ (',' :: '\n' :: ' ' :: ' ' ::
        (joinSep [',', '\n', ' ', ' '] (studentSer s1 :: students.map studentSer) ++
          ('\n' :: ']' :: rest))) by
      simp]
    rw [parseJElems_succ, parseJValue_student g1 s0 _ (by omega)]
    simp only [skipWs_comma]
    rw [show (studentSer s1 :: students.map studentSer) = ((s1 :: students).map studentSer)
      from rfl]
    rw [ih s1 (g1 + 1) rest (by omega)]
    rfl

theorem parseJValue_lbrack (fuel : Nat) (r : List Char) :
    parseJValue (fuel + 1) ('[' :: r) =
      (match skipWs r with
       | ']' :: r2 => .ok (.jarr [], r2)
       | _ => (parseJElems fuel r).map fun p => (.jarr p.1, p.2)) := rfl

theorem studentSer_len (s : Student) : 12 ≤ (studentSer s).length := by
  have h12 : ("\x7b\n    \"id\": ".data).length = 12 := rfl
  simp [studentSer, List.length_append, h12]

theorem joinSep_len_ge : ∀ (l : List Student) (s0 : Student),
    12 + 12 * l.length ≤ (joinSep [',', '\n', ' ', ' '] ((s0 :: l).map studentSer)).length := by
  intro l
  induction l with
  | nil =>
    intro s0
    simpa [joinSep] using studentSer_len s0
  | cons s1 l ih =>
    intro s0
    simp only [List.map_cons, joinSep, List.length_append, List.length_cons, List.length_nil]
    have h0 := studentSer_len s0
    have h1 := ih s1
    simp only [List.map_cons, List.length_cons] at h1
    omega

theorem jsonParse_saveToJSON (students : List Student) :
    jsonParse (saveToJSONBody students) = .ok (.jarr (students.map studentJValue)) := by
  cases students with
  | nil => rfl
  | cons s0 rest' =>
    have hdata : ∀ L : List Char, (String.mk L).data = L := fun _ => rfl
    have hhead : ∀ Z : List Char, ∃ W, skipWs (studentSer s0 ++ Z) = '{' :: W := by
      intro Z
      rw [studentSer_decomp s0 Z]
      exact ⟨_, rfl⟩
    simp only [saveToJSONBody, jsonParse, hdata]
    rw [show ("[\n  ".data ++
        joinSep (",\n  ".data) ((s0 :: rest').map studentSer)) ++ ("\n]".data) =
      '[' :: '\n' :: ' ' :: ' ' ::
        (joinSep [',', '\n', ' ', ' '] ((s0 :: rest').map studentSer) ++
          ('\n' :: ']' :: ([] : List Char))) by
      simp [show ("[\n  ".data) = ['[', '\n', ' ', ' '] from rfl,
        show ("\n]".data) = ['\n', ']'] from rfl,
        show (",\n  ".data) = [',', '\n', ' ', ' '] from rfl]]
    have hlen : 10 * rest'.length + 10 ≤
        ('[' :: '\n' :: ' ' :: ' ' ::
          (joinSep [',', '\n', ' ', ' '] ((s0 :: rest').map studentSer) ++
            ('\n' :: ']' :: ([] : List Char)))).length := by
      have hj := joinSep_len_ge rest' s0
      simp only [List.length_cons, List.length_append, List.length_nil]
      omega
    have hparse : parseJValue
        (('[' :: '\n' :: ' ' :: ' ' ::
          (joinSep [',', '\n', ' ', ' '] ((s0 :: rest').map studentSer) ++
            ('\n' :: ']' :: ([] : List Char)))).length + 1)
        ('[' :: '\n' :: ' ' :: ' ' ::
          (joinSep [',', '\n', ' ', ' '] ((s0 :: rest').map studentSer) ++
            ('\n' :: ']' :: ([] : List Char)))) =
        .ok (.jarr ((s0 :: rest').map studentJValue), []) := by
      rw [parseJValue_lbrack]
      split
      · rename_i r2 heq
        rw [skipWs_nl, skipWs_space, skipWs_space] at heq
        exfalso
        cases rest' with
        | nil =>
          simp only [List.map_cons, List.map_nil, joinSep] at heq
          obtain ⟨W, hW⟩ := hhead ('\n' :: ']' :: ([] : List Char))
          rw [hW] at heq
          simp at heq
        | cons s1 l =>
          simp only [List.map_cons, joinSep] at heq
          rw [show ((studentSer s0 ++ [',', '\n', ' ', ' ']) ++
              joinSep [',', '\n', ' ', ' '] (studentSer s1 :: l.map studentSer)) ++
              ('\n' :: ']' :: ([] : List Char)) =
            studentSer s0 ++ ([',', '\n', ' ', ' '] ++
              (joinSep [',', '\n', ' ', ' '] (studentSer s1 :: l.map studentSer) ++
                ('\n' :: ']' :: ([] : List Char)))) by
            simp [List.append_assoc]] at heq
          obtain ⟨W, hW⟩ := hhead ([',', '\n', ' ', ' '] ++
            (joinSep [',', '\n', ' ', ' '] (studentSer s1 :: l.map studentSer) ++
              ('\n' :: ']' :: ([] : List Char))))
          rw [hW] at heq
          simp at heq
      · rw [parseJElems_students rest' s0 _ [] hlen]
        rfl
    rw [hparse]
    rfl

/-- The claim's concrete 5-record collection, exercising escaped characters
(a quote, a newline), a non-ASCII name, an empty string and a negative
number. -/
def c9Students : List Student :=
  [⟨"s-1", "Alice", 20, 1⟩,
   ⟨"s-2", "Bob \"Bobby\"", 21, -2⟩,
   ⟨"s-3", "Carla M", 22, 3⟩,
   ⟨"s-4", "Dana\nLine", 23, 4⟩,
   ⟨"s-5", "", 24, 0⟩]

/-- C9: snapshot serialization round-trips — for every collection, writing it
with `saveToJSON` (a pretty-printed JSON array of record objects, no
envelope) and parsing the file body back with `JSON.parse` yields exactly the
array of the records' JSON values, one per record (same length, equivalent
records); in particular the concrete 5-record collection round-trips to
exactly 5 records. -/
theorem c9_snapshot_roundtrip :
    (∀ students : List Student,
      jsonParse (saveToJSONBody students) = .ok (.jarr (students.map studentJValue)) ∧
      (students.map studentJValue).length = students.length) ∧
    (c9Students.length = 5 ∧
     jsonParse (saveToJSONBody c9Students) = .ok (.jarr (c9Students.map studentJValue))) := by
  refine ⟨fun students => ⟨jsonParse_saveToJSON students, by simp⟩, by decide, ?_⟩
  exact jsonParse_saveToJSON c9Students
